import Mathlib

/-!
# Video transcript platform: the transcription pipeline

A shallow embedding of the backend pipeline (`server.js`, `transcriptionService.js`,
`videoProcessor.js`, `localTranscriptionService.js`) and of the subtitle export of
`TranscriptViewer.jsx`.

Stateful code is written in explicit state-passing style over a `World`: the set of
regular files on disk (absolute paths) and the trace of the effects performed so far.
External processes (`exec`, ffmpeg), the clock and `JSON.parse` are parameters gathered
in `Env`, so that theorems quantify over every behaviour of the environment.
-/

namespace VideoTranscript

/-! ## JavaScript string helpers -/

/-- JavaScript `s.startsWith(p)`. -/
def jsStartsWith (s p : String) : Bool := p.data.isPrefixOf s.data

/-- JavaScript `s.endsWith(p)`. -/
def jsEndsWith (s p : String) : Bool := p.data.isSuffixOf s.data

/-- Whether the list `p` occurs as a contiguous block of `s`. -/
def includesChars (s p : List Char) : Bool :=
  match s with
  | [] => p.isEmpty
  | c :: cs => p.isPrefixOf (c :: cs) || includesChars cs p

/-- JavaScript `s.includes(p)`. -/
def jsIncludes (s p : String) : Bool := includesChars s.data p.data

/-- Node's `path.join(dir, name)` for a normalised directory and a plain file name. -/
def pathJoin (dir name : String) : String := dir ++ "/" ++ name

/-! ## The world: files and effects -/

/-- Call sites of `execAsync` in the backend. -/
inductive ExecSite where
  | engineProbe      -- localTranscriptionService.js:61
  | downloaderProbe  -- videoProcessor.js:33
  | download         -- videoProcessor.js:44
  | engine           -- localTranscriptionService.js:28
  deriving DecidableEq, Repr

/-- Observable effects, in the order in which the code performs them. -/
inductive Event where
  | call (fn : String)
  | exec (site : ExecSite) (cmd : String) (ok : Bool)
  | readdir (dir : String)
  | rename (src dst : String) (ok : Bool)
  | ffmpeg (input output : String) (ok : Bool)
  | unlink (path : String) (ok : Bool)
  | stat (path : String)
  | validate (ok : Bool)
  | detect (platform : Option String)
  | respond (status : Nat)
  deriving DecidableEq, Repr

/-- The disk (absolute paths of the regular files that exist) and the effect trace. -/
structure World where
  files : List String
  trace : List Event
  deriving DecidableEq, Repr

/-- Append an event to the trace. -/
def World.emit (w : World) (e : Event) : World := { w with trace := w.trace ++ [e] }

/-- Result of an external process run through `execAsync`: it rejects with an error
message, or resolves with `stdout` and `stderr`. -/
abbrev ExecResult := Except String (String × String)

/-- JSON values as produced by `JSON.parse`; numbers are kept as rationals. -/
inductive Json where
  | null
  | bool (b : Bool)
  | num (q : Rat)
  | str (s : String)
  | arr (xs : List Json)
  | obj (kvs : List (String × Json))

/-- The environment of one Job: everything the code obtains from outside itself. -/
structure Env where
  /-- Value of `__dirname`, the directory of the backend modules. -/
  dirname : String
  /-- Value returned by `Date.now()`. -/
  now : Nat
  /-- Behaviour of a child process: given the command line and the disk, its outcome and
  the disk it leaves behind. -/
  exec : String → List String → ExecResult × List String
  /-- Behaviour of the transcoder: given input path, output path and the disk, an error
  message (if it fails) and the disk it leaves behind. -/
  ffmpeg : String → String → List String → Option String × List String
  /-- Paths whose deletion the operating system refuses although the file exists. -/
  unlinkDenied : String → Bool
  /-- The built-in `JSON.parse`: a value, or the message of the `SyntaxError`. -/
  jsonParse : String → Except String Json

/-- The constant `TEMP_DIR` of videoProcessor.js. -/
def TEMP_DIR (env : Env) : String := pathJoin env.dirname "temp"

/-! ## File-system primitives -/

/-- Node's `fs.unlink(path)`: removes the file, or throws when it does not exist or the
system refuses. -/
def unlink (env : Env) (path : String) (w : World) : Except String Unit × World :=
  if path ∈ w.files ∧ env.unlinkDenied path = false then
    (.ok (), { files := w.files.filter (fun f => f != path),
               trace := w.trace ++ [Event.unlink path true] })
  else
    (.error ("ENOENT: no such file or directory, unlink '" ++ path ++ "'"),
      w.emit (Event.unlink path false))

/-- The extension list of `cleanupFiles`. -/
def extensions : List String := ["", ".mp4", ".webm", ".mp3", ".m4a", ".wav"]

/-- Inner loop of `cleanupFiles`: `try { await fs.unlink(filePath + ext) } catch {}` for
each extension. The `catch` swallows the error, so the loop itself cannot throw. -/
def cleanupExts (env : Env) (filePath : String) :
    List String → World → Except String Unit × World
  | [], w => (.ok (), w)
  | ext :: rest, w =>
    match unlink env (filePath ++ ext) w with
    | (.ok _, w1) => cleanupExts env filePath rest w1
    | (.error _, w1) => cleanupExts env filePath rest w1

/-- Outer loop of `cleanupFiles`: `try { ... } catch (error) { console.warn(...) }` for
each path. -/
def cleanupLoop (env : Env) : List String → World → Except String Unit × World
  | [], w => (.ok (), w)
  | filePath :: rest, w =>
    match cleanupExts env filePath extensions w with
    | (.ok _, w1) => cleanupLoop env rest w1
    | (.error _, w1) => cleanupLoop env rest w1

/-- Function `cleanupFiles(filePaths)` of videoProcessor.js. -/
def cleanupFiles (env : Env) (filePaths : List String) (w : World) :
    Except String Unit × World :=
  cleanupLoop env filePaths (w.emit (Event.call "cleanupFiles"))

/-- Node's `fs.rename(src, dst)`: moves the file, replacing an existing destination;
throws when the source does not exist. -/
def rename (src dst : String) (w : World) : Except String Unit × World :=
  if src ∈ w.files then
    (.ok (), { files := (w.files.filter (fun f => f != src && f != dst)) ++ [dst],
               trace := w.trace ++ [Event.rename src dst true] })
  else
    (.error ("ENOENT: no such file or directory, rename '" ++ src ++ "' -> '" ++ dst ++ "'"),
      w.emit (Event.rename src dst false))

/-- Node's `fs.readdir(dir)`: the names of the entries directly inside `dir`. Only
regular files are modelled, so sub-directories do not appear. -/
def readdir (dir : String) (files : List String) : List String :=
  files.filterMap fun p =>
    if jsStartsWith p (dir ++ "/") then
      let name := p.data.drop (dir.data.length + 1)
      if name.isEmpty || name.contains '/' then none else some (String.mk name)
    else none

/-- The promisified `exec`: runs the command, records the call and its outcome. -/
def execAsync (env : Env) (site : ExecSite) (cmd : String) (w : World) :
    ExecResult × World :=
  match env.exec cmd w.files with
  | (.ok out, files) => (.ok out, { files := files, trace := w.trace ++ [Event.exec site cmd true] })
  | (.error msg, files) =>
    (.error msg, { files := files, trace := w.trace ++ [Event.exec site cmd false] })

/-! ## videoProcessor.js -/

/-- Function `extractAudioWithFFmpeg(inputPath, outputPath)`: the promise resolves on the
`end` event and rejects with the error of the `error` event. -/
def extractAudioWithFFmpeg (env : Env) (inputPath outputPath : String) (w : World) :
    Except String Unit × World :=
  match env.ffmpeg inputPath outputPath w.files with
  | (none, files) =>
    (.ok (), { files := files, trace := w.trace ++ [Event.ffmpeg inputPath outputPath true] })
  | (some msg, files) =>
    (.error msg, { files := files, trace := w.trace ++ [Event.ffmpeg inputPath outputPath false] })

/-- The template string `video_${timestamp}`. -/
def videoName (env : Env) : String := "video_" ++ toString env.now

/-- The template string `audio_${timestamp}`. -/
def audioName (env : Env) : String := "audio_" ++ toString env.now

/-- Local `videoPath` of `downloadAndExtractAudio`. -/
def videoPath (env : Env) : String := pathJoin (TEMP_DIR env) (videoName env)

/-- Local `audioPath` of `downloadAndExtractAudio`. -/
def audioPath (env : Env) : String := pathJoin (TEMP_DIR env) (audioName env ++ ".mp3")

/-- Local `downloadCommand` of `downloadAndExtractAudio`. -/
def downloadCommand (env : Env) (url : String) : String :=
  "python3 \"" ++ pathJoin env.dirname "download_video.py" ++ "\" \"" ++ url ++ "\" \""
    ++ videoPath env ++ "\""

/-- The command of the downloader probe (videoProcessor.js:33). -/
def downloaderProbeCommand : String := "yt-dlp --version"

/-- Message thrown when the `yt-dlp --version` probe fails. -/
def ytDlpMissingMessage : String :=
  "yt-dlp is not installed. Please install it using: pip install yt-dlp or brew install yt-dlp"

/-- The `try` block of `downloadAndExtractAudio` (videoProcessor.js:30-78). -/
def downloadTry (env : Env) (url : String) (w : World) : Except String String × World :=
  match execAsync env .downloaderProbe downloaderProbeCommand w with
  | (.error _, w1) => (.error ytDlpMissingMessage, w1)
  | (.ok _, w1) =>
    match execAsync env .download (downloadCommand env url) w1 with
    | (.error msg, w2) => (.error msg, w2)
    | (.ok _, w2) =>
      let w3 := w2.emit (Event.readdir (TEMP_DIR env))
      let files := readdir (TEMP_DIR env) w3.files
      match files.find? (fun f => jsStartsWith f (videoName env) || jsStartsWith f (audioName env)) with
      | none => (.error "Downloaded file not found", w3)
      | some downloadedFile =>
        let downloadedPath := pathJoin (TEMP_DIR env) downloadedFile
        if jsEndsWith downloadedFile ".mp3" then
          match rename downloadedPath (audioPath env) w3 with
          | (.error msg, w4) => (.error msg, w4)
          | (.ok _, w4) => (.ok (audioPath env), w4)
        else
          match extractAudioWithFFmpeg env downloadedPath (audioPath env) w3 with
          | (.error msg, w4) => (.error msg, w4)
          | (.ok _, w4) =>
            -- try { await fs.unlink(downloadedPath) } catch (err) { console.warn(...) }
            match unlink env downloadedPath w4 with
            | (_, w5) => (.ok (audioPath env), w5)

/-- Function `downloadAndExtractAudio(url, platform)`: the `try` block, and the `catch`
that cleans up and rethrows with a prefixed message. The `platform` argument is only
logged. -/
def downloadAndExtractAudio (env : Env) (url : String) (_platform : String) (w : World) :
    Except String String × World :=
  match downloadTry env url (w.emit (Event.call "downloadAndExtractAudio")) with
  | (.ok path, w1) => (.ok path, w1)
  | (.error message, w1) =>
    match cleanupFiles env [videoPath env, audioPath env] w1 with
    | (.error e, w2) => (.error e, w2)
    | (.ok _, w2) => (.error ("Failed to download/extract audio: " ++ message), w2)

/-- Function `getFileSizeMB(filePath)`: any failure of `fs.stat` is caught and yields 0;
the size is only logged, so the model records the call and nothing else. -/
def getFileSizeMB (filePath : String) (w : World) : World := w.emit (Event.stat filePath)

/-! ## localTranscriptionService.js -/

/-- White space and line terminators stripped by `String.prototype.trim`. -/
def isJsWhitespace (c : Char) : Bool :=
  c = ' ' || c = '\t' || c = '\n' || c = '\r' || c.toNat = 0x0B || c.toNat = 0x0C
    || c.toNat = 0xA0 || c.toNat = 0x1680 || (0x2000 ≤ c.toNat && c.toNat ≤ 0x200A)
    || c.toNat = 0x2028 || c.toNat = 0x2029 || c.toNat = 0x202F || c.toNat = 0x205F
    || c.toNat = 0x3000 || c.toNat = 0xFEFF

/-- JavaScript `s.trim()`. -/
def jsTrim (s : String) : String :=
  String.mk ((s.data.dropWhile isJsWhitespace).reverse.dropWhile isJsWhitespace).reverse

/-- Local `command` of `transcribeWithFasterWhisper`. -/
def whisperCommand (env : Env) (audioPath : String) (translate : Bool) : String :=
  let translateFlag := if translate then "--translate" else ""
  jsTrim ("python3 \"" ++ pathJoin env.dirname "whisper_transcribe.py" ++ "\" \""
    ++ audioPath ++ "\" " ++ translateFlag)

/-- Message of the `TypeError` raised by reading `result.translated` when `result` is
`null`. -/
def nullReadMessage : String := "Cannot read properties of null (reading 'translated')"

/-- The `try` block of `transcribeWithFasterWhisper` (localTranscriptionService.js:17-43):
run the engine, `JSON.parse` its stdout, read `result.translated` for the log line, and
return the parsed value as it is. -/
def whisperTry (env : Env) (audioPath : String) (translate : Bool) (w : World) :
    Except String Json × World :=
  match execAsync env .engine (whisperCommand env audioPath translate) w with
  | (.error msg, w1) => (.error msg, w1)
  | (.ok (stdout, _stderr), w1) =>
    match env.jsonParse stdout with
    | .error msg => (.error msg, w1)
    | .ok .null => (.error nullReadMessage, w1)
    | .ok result => (.ok result, w1)

/-- The `catch` block of `transcribeWithFasterWhisper` (localTranscriptionService.js:45-53):
the message of the error that replaces the caught one. -/
def whisperCatch (message : String) : String :=
  if jsIncludes message "python3: command not found" then
    "Python 3 is not installed. Please install Python 3 to use local transcription."
  else if jsIncludes message "No module named" then
    "faster-whisper is not installed. Please run: pip install faster-whisper"
  else
    "Transcription error: " ++ message

/-- Function `transcribeWithFasterWhisper(audioPath, translate)`. -/
def transcribeWithFasterWhisper (env : Env) (audioPath : String) (translate : Bool)
    (w : World) : Except String Json × World :=
  match whisperTry env audioPath translate (w.emit (Event.call "transcribeWithFasterWhisper")) with
  | (.ok result, w1) => (.ok result, w1)
  | (.error message, w1) => (.error (whisperCatch message), w1)

/-- The command of the engine-availability probe (localTranscriptionService.js:61). -/
def engineProbeCommand : String := "python3 -c \"import faster_whisper\""

/-- Function `checkFasterWhisperInstalled()`. -/
def checkFasterWhisperInstalled (env : Env) (w : World) : Bool × World :=
  match execAsync env .engineProbe engineProbeCommand w with
  | (.ok _, w1) => (true, w1)
  | (.error _, w1) => (false, w1)

/-! ## transcriptionService.js -/

/-- Message thrown by `transcribeVideo` when the engine check fails. -/
def engineMissingMessage : String :=
  "faster-whisper is not installed. Please install it using:\n" ++
  "pip install faster-whisper\n\n" ++
  "Or install with conda:\n" ++
  "conda install -c conda-forge faster-whisper"

/-- The `try` block of `transcribeVideo` (transcriptionService.js:17-43) together with its
`catch`, which logs and rethrows the same error. Besides the outcome it yields the value
that the local `audioPath` holds when the block is left. -/
def transcribeTry (env : Env) (url platform : String) (translate : Bool) (w : World) :
    Except String Json × Option String × World :=
  match checkFasterWhisperInstalled env w with
  | (false, w1) => (.error engineMissingMessage, none, w1)
  | (true, w1) =>
    match downloadAndExtractAudio env url platform w1 with
    | (.error msg, w2) => (.error msg, none, w2)
    | (.ok audioPath, w2) =>
      match transcribeWithFasterWhisper env audioPath translate (getFileSizeMB audioPath w2) with
      | (.error msg, w3) => (.error msg, some audioPath, w3)
      | (.ok transcript, w3) => (.ok transcript, some audioPath, w3)

/-- Function `transcribeVideo(url, platform, translate)`: the `try`/`catch` block followed
by the `finally` block, `if (audioPath) { await cleanupFiles([audioPath]) }`. -/
def transcribeVideo (env : Env) (url platform : String) (translate : Bool) (w : World) :
    Except String Json × World :=
  match transcribeTry env url platform translate (w.emit (Event.call "transcribeVideo")) with
  | (r, none, w1) => (r, w1)
  | (r, some audioPath, w1) =>
    if audioPath = "" then (r, w1)
    else
      match cleanupFiles env [audioPath] w1 with
      | (.error e, w2) => (.error e, w2)
      | (.ok _, w2) => (r, w2)

/-! ## server.js -/

/-- Line terminators, which `.` of a regular expression does not match. -/
def isLineTerminator (c : Char) : Bool :=
  c = '\n' || c = '\r' || c.toNat = 0x2028 || c.toNat = 0x2029

/-- The test `/^https?:\/\/.+/.test(url)`. -/
def urlPatternTest (url : String) : Bool :=
  let rest : Option (List Char) :=
    if jsStartsWith url "https://" then some (url.data.drop 8)
    else if jsStartsWith url "http://" then some (url.data.drop 7)
    else none
  match rest with
  | some (c :: _) => !isLineTerminator c
  | _ => false

/-- Function `detectPlatform(url)` of server.js. -/
def detectPlatform (url : String) : Option String :=
  if jsIncludes url "youtube.com" || jsIncludes url "youtu.be" then some "youtube"
  else if jsIncludes url "instagram.com" then some "instagram"
  else if jsIncludes url "tiktok.com" then some "tiktok"
  else none

/-- Body of a request to `/api/transcribe`, with the shape of the interface: `url` is a
string or absent, `translate` a boolean (absent counts as `false`). -/
structure Request where
  url : Option String
  translate : Bool

/-- What the handler sends back: `res.status(code).json({ error })` or
`res.json({ success: true, platform, ...transcript })`. -/
inductive Response where
  | failure (status : Nat) (error : String)
  | success (platform : String) (transcript : Json)

/-- The status code of a response. -/
def Response.status : Response → Nat
  | .failure status _ => status
  | .success _ _ => 200

/-- Send a response: record it in the trace and return it. -/
def respond (r : Response) (w : World) : Response × World := (r, w.emit (Event.respond r.status))

/-- The handler of `POST /api/transcribe` (server.js:37-78). The events `validate` and
`detect` mark the two pure checks. -/
def handleTranscribe (env : Env) (req : Request) (w : World) : Response × World :=
  match req.url with
  | none => respond (.failure 400 "Video URL is required") (w.emit (Event.validate false))
  | some url =>
    if url = "" then
      respond (.failure 400 "Video URL is required") (w.emit (Event.validate false))
    else if urlPatternTest url = false then
      respond (.failure 400 "Invalid URL format") (w.emit (Event.validate false))
    else
      let w1 := w.emit (Event.validate true)
      match detectPlatform url with
      | none =>
        respond (.failure 400
          "Unsupported platform. Please provide a YouTube, Instagram, or TikTok URL")
          (w1.emit (Event.detect none))
      | some platform =>
        match transcribeVideo env url platform req.translate
            (w1.emit (Event.detect (some platform))) with
        | (.ok transcript, w2) => respond (.success platform transcript) w2
        | (.error message, w2) =>
          respond (.failure 500 (if message = "" then "Failed to transcribe video" else message)) w2

/-! ## Vocabulary of the claims -/


/-- The paths `cleanupFiles` tries to delete: `p + ext` for each listed path `p` and each
known extension `ext`. -/
def cleanupTargets : List String → List String
  | [] => []
  | p :: ps => extensions.map (fun ext => p ++ ext) ++ cleanupTargets ps

/-- Number of invocations of `cleanupFiles` recorded in a trace. -/
def cleanupCalls (tr : List Event) : Nat := tr.count (Event.call "cleanupFiles")

/-- Whether an event is a deletion attempt. -/
def Event.isUnlink : Event → Bool
  | .unlink _ _ => true
  | _ => false

/-- The stages of a request, in the order of the specification; media fetch consists of
the downloader probe followed by the download. -/
inductive Stage where
  | validation
  | detection
  | engineProbe
  | downloaderProbe
  | download
  | extraction
  | transcription
  | response
  deriving DecidableEq, Repr

/-- The fixed stage order. -/
def stageOrder : List Stage :=
  [.validation, .detection, .engineProbe, .downloaderProbe, .download, .extraction,
   .transcription, .response]

/-- The stage an event starts, with whether the step succeeded. Extraction is the rename
of the fast path or the transcoder run; the response stage is the success response.
Calls, directory listings, deletions, `stat` and error responses start no stage. -/
def stageOf : Event → Option (Stage × Bool)
  | .validate ok => some (.validation, ok)
  | .detect platform => some (.detection, platform.isSome)
  | .exec .engineProbe _ ok => some (.engineProbe, ok)
  | .exec .downloaderProbe _ ok => some (.downloaderProbe, ok)
  | .exec .download _ ok => some (.download, ok)
  | .rename _ _ ok => some (.extraction, ok)
  | .ffmpeg _ _ ok => some (.extraction, ok)
  | .exec .engine _ ok => some (.transcription, ok)
  | .respond status => if status = 200 then some (.response, true) else none
  | _ => none

/-- The stages started along a trace, in order, each with its outcome. -/
def stagesOf (tr : List Event) : List (Stage × Bool) := tr.filterMap stageOf

/-! ## Concrete environments -/

/-- A concrete environment: the engine is installed, yt-dlp is present, the downloader
writes `video_1.mkv` into the temp directory, and the transcoder fails. -/
def leakEnv : Env where
  dirname := "/app"
  now := 1
  exec := fun cmd files =>
    if cmd = "python3 -c \"import faster_whisper\"" then (.ok ("", ""), files)
    else if cmd = "yt-dlp --version" then (.ok ("2024.08.06\n", ""), files)
    else if cmd = "python3 \"/app/download_video.py\" \"https://youtu.be/x\" \"/app/temp/video_1\""
      then (.ok ("", ""), files ++ ["/app/temp/video_1.mkv"])
    else (.error "Command failed", files)
  ffmpeg := fun _ _ files => (some "ffmpeg exited with code 1", files)
  unlinkDenied := fun _ => false
  jsonParse := fun _ => .error "Unexpected end of JSON input"

/-- A concrete environment in which no external tool is installed: every child process
fails and nothing touches the disk. -/
def bareEnv : Env where
  dirname := "/app"
  now := 1
  exec := fun _ files => (.error "Command failed", files)
  ffmpeg := fun _ _ files => (some "ffmpeg exited with code 1", files)
  unlinkDenied := fun _ => false
  jsonParse := fun _ => .error "Unexpected end of JSON input"

/-- A concrete environment in which the speech engine is installed but yt-dlp is not:
every child process other than the engine probe fails, and nothing touches the disk. -/
def noDownloaderEnv : Env where
  dirname := "/app"
  now := 1
  exec := fun cmd files =>
    if cmd = "python3 -c \"import faster_whisper\"" then (.ok ("", ""), files)
    else (.error "Command failed: yt-dlp --version\n/bin/sh: 1: yt-dlp: not found\n", files)
  ffmpeg := fun _ _ files => (some "ffmpeg exited with code 1", files)
  unlinkDenied := fun _ => false
  jsonParse := fun _ => .error "Unexpected end of JSON input"

/-! ## Transcript results -/

/-- Property read `value[key]` on a parsed JSON value; `none` stands for `undefined`. -/
def Json.get (j : Json) (key : String) : Option Json :=
  match j with
  | .obj kvs => kvs.lookup key
  | _ => none

/-- The number held by a property, if it holds one. -/
def Json.number : Option Json → Option Rat
  | some (.num q) => some q
  | _ => none

/-- The `segments` array of a transcript result (empty when absent). -/
def segmentsOf (result : Json) : List Json :=
  match result.get "segments" with
  | some (.arr xs) => xs
  | _ => []

/-- The invariant `start ≤ end` of one segment. -/
def segmentWellTimed (seg : Json) : Bool :=
  match Json.number (seg.get "start"), Json.number (seg.get "end") with
  | some s, some e => decide (s ≤ e)
  | _, _ => false

/-- The invariant that start times do not decrease along the sequence. -/
def startsNonDecreasing : List Json → Bool
  | a :: b :: rest =>
    (match Json.number (a.get "start"), Json.number (b.get "start") with
      | some s, some t => decide (s ≤ t)
      | _, _ => false) && startsNonDecreasing (b :: rest)
  | _ => true

/-- The segment invariant of the specification: `start ≤ end` for every segment, and start
times non-decreasing. -/
def segmentsOrdered (result : Json) : Bool :=
  (segmentsOf result).all segmentWellTimed && startsNonDecreasing (segmentsOf result)

/-- A concrete environment in which every tool works: the downloader writes
`video_1.mp4`, the transcoder writes its output file, and the engine prints `stdout`,
which `JSON.parse` reads as `parsed`. -/
def workingEnv (stdout : String) (parsed : Except String Json) : Env where
  dirname := "/app"
  now := 1
  exec := fun cmd files =>
    if cmd = "python3 -c \"import faster_whisper\"" then (.ok ("", ""), files)
    else if cmd = "yt-dlp --version" then (.ok ("2024.08.06\n", ""), files)
    else if cmd = "python3 \"/app/download_video.py\" \"https://youtu.be/x\" \"/app/temp/video_1\""
      then (.ok ("", ""), files ++ ["/app/temp/video_1.mp4"])
    else if cmd = "python3 \"/app/whisper_transcribe.py\" \"/app/temp/audio_1.mp3\""
      then (.ok (stdout, ""), files)
    else (.error "Command failed", files)
  ffmpeg := fun _ output files => (none, files ++ [output])
  unlinkDenied := fun _ => false
  jsonParse := fun s => if s = stdout then parsed else .error "Unexpected token"

/-- An engine output with the full result shape whose two segments are out of order and
whose first segment ends before it starts. -/
def disorderedStdout : String :=
  "\x7b\"text\": \"second first\", \"language\": \"en\", \"duration\": 6, " ++
  "\"translated\": false, \"segments\": [" ++
  "\x7b\"text\": \"second\", \"start\": 5, \"end\": 4\x7d, " ++
  "\x7b\"text\": \"first\", \"start\": 1, \"end\": 2\x7d]\x7d"

/-- The value `JSON.parse` yields for `disorderedStdout`. -/
def disorderedResult : Json :=
  .obj [("text", .str "second first"), ("language", .str "en"), ("duration", .num 6),
    ("translated", .bool false),
    ("segments", .arr [
      .obj [("text", .str "second"), ("start", .num 5), ("end", .num 4)],
      .obj [("text", .str "first"), ("start", .num 1), ("end", .num 2)]])]

/-- The segments the engine printed on `stdout`: the `segments` array of the value
`JSON.parse` yields for it (none when `stdout` is not JSON). -/
def printedSegments (env : Env) (stdout : String) : List Json :=
  match env.jsonParse stdout with
  | .ok parsed => segmentsOf parsed
  | .error _ => []

/-- An engine output with the full result shape and two segments in chronological
order. -/
def orderedStdout : String :=
  "\x7b\"text\": \"first second\", \"language\": \"en\", \"duration\": 6, " ++
  "\"translated\": false, \"segments\": [" ++
  "\x7b\"text\": \"first\", \"start\": 1, \"end\": 2\x7d, " ++
  "\x7b\"text\": \"second\", \"start\": 5, \"end\": 6\x7d]\x7d"

/-- The value `JSON.parse` yields for `orderedStdout`. -/
def orderedResult : Json :=
  .obj [("text", .str "first second"), ("language", .str "en"), ("duration", .num 6),
    ("translated", .bool false),
    ("segments", .arr [
      .obj [("text", .str "first"), ("start", .num 1), ("end", .num 2)],
      .obj [("text", .str "second"), ("start", .num 5), ("end", .num 6)]])]

/-- The working environment whose engine prints `orderedStdout`. -/
def orderedEnv : Env := workingEnv orderedStdout (.ok orderedResult)

/-! ## TranscriptViewer.jsx: subtitle export

JavaScript numbers are IEEE-754 doubles. A finite double is represented by a fraction of
integers denoting its exact value; `/` and `*` round their exact result to the nearest
double, while `%` and `Math.floor` are exact. -/

/-- A rational number `num / den` with `den > 0`, not necessarily in lowest terms. -/
structure Frac where
  num : Int
  den : Nat
  deriving Repr

/-- The integer `n` as a fraction. -/
def Frac.ofInt (n : Int) : Frac := ⟨n, 1⟩

/-- Exact product. -/
def Frac.mul (a b : Frac) : Frac := ⟨a.num * b.num, a.den * b.den⟩

/-- Exact difference. -/
def Frac.sub (a b : Frac) : Frac := ⟨a.num * b.den - b.num * a.den, a.den * b.den⟩

/-- Exact quotient, for a divisor `b > 0`. -/
def Frac.div (a b : Frac) : Frac := ⟨a.num * b.den, a.den * b.num.toNat⟩

/-- The largest integer not above the fraction. -/
def Frac.floor (a : Frac) : Int := Int.fdiv a.num a.den

/-- The integer part, rounding toward zero. -/
def Frac.trunc (a : Frac) : Int :=
  if a.num < 0 then -(Int.fdiv (-a.num) a.den) else Int.fdiv a.num a.den

/-- Number of binary digits of `n`, computed with `fuel` halvings. -/
def bitLengthAux : Nat → Nat → Nat
  | 0, _ => 0
  | fuel + 1, n => if n = 0 then 0 else bitLengthAux fuel (n / 2) + 1

/-- Number of binary digits of `n` (`0` for `n = 0`). -/
def bitLength (n : Nat) : Nat := bitLengthAux n n

/-- For `a, d > 0`, the exponent `e` with `2^e ≤ a / d < 2^(e+1)`. -/
def binaryExponent (a d : Nat) : Int :=
  let k : Int := (bitLength a : Int) - (bitLength d : Int)
  let reaches : Bool :=
    if 0 ≤ k then decide (d * 2 ^ k.toNat ≤ a) else decide (d ≤ a * 2 ^ (-k).toNat)
  if reaches then k else k - 1

/-- Rounding of `n / d` to the nearest integer, ties to the even one. -/
def roundHalfEven (n d : Nat) : Nat :=
  let f := n / d
  let r := n % d
  if 2 * r < d then f
  else if d < 2 * r then f + 1
  else if f % 2 = 0 then f else f + 1

/-- The double nearest to a fraction (53-bit significand, round to nearest, ties to
even), for values within the normal range of doubles. -/
def roundDouble (x : Frac) : Frac :=
  if x.num = 0 then ⟨0, 1⟩
  else
    let a := x.num.natAbs
    let e := binaryExponent a x.den - 52
    let m : Nat :=
      if 0 ≤ e then roundHalfEven a (x.den * 2 ^ e.toNat)
      else roundHalfEven (a * 2 ^ (-e).toNat) x.den
    let sign : Int := if x.num < 0 then -1 else 1
    if 0 ≤ e then ⟨sign * (m * 2 ^ e.toNat : Nat), 1⟩ else ⟨sign * m, 2 ^ (-e).toNat⟩

/-- JavaScript `a / b` on doubles, for `b > 0`. -/
def jsDiv (a b : Frac) : Frac := roundDouble (a.div b)

/-- JavaScript `a * b` on doubles. -/
def jsMul (a b : Frac) : Frac := roundDouble (a.mul b)

/-- JavaScript `a % b` on doubles, for `b > 0`: `a - b * trunc(a / b)`, which is always
exact. -/
def jsMod (a b : Frac) : Frac := a.sub (b.mul (Frac.ofInt (a.div b).trunc))

/-- JavaScript `Math.floor`. -/
def mathFloor (a : Frac) : Int := a.floor

/-- JavaScript `s.padStart(size, c)`. -/
def jsPadStart (s : String) (size : Nat) (c : Char) : String :=
  String.mk (List.replicate (size - s.data.length) c ++ s.data)

/-- Function `pad(num, size)`: `String(num).padStart(size, '0')`, for an integer `num`. -/
def pad (num : Int) (size : Nat) : String := jsPadStart (toString num) size '0'

/-- The four numbers computed by `formatTimeSRT` and `formatTimeVTT`: `hrs`, `mins`,
`secs` and `ms`. -/
def timeFields (seconds : Frac) : Int × Int × Int × Int :=
  let hrs := mathFloor (jsDiv seconds (Frac.ofInt 3600))
  let mins := mathFloor (jsDiv (jsMod seconds (Frac.ofInt 3600)) (Frac.ofInt 60))
  let secs := mathFloor (jsMod seconds (Frac.ofInt 60))
  let ms := mathFloor (jsMul (jsMod seconds (Frac.ofInt 1)) (Frac.ofInt 1000))
  (hrs, mins, secs, ms)

/-- Function `formatTimeSRT(seconds)`. -/
def formatTimeSRT (seconds : Frac) : String :=
  match timeFields seconds with
  | (hrs, mins, secs, ms) =>
    pad hrs 2 ++ ":" ++ pad mins 2 ++ ":" ++ pad secs 2 ++ "," ++ pad ms 3

/-- Function `formatTimeVTT(seconds)`. -/
def formatTimeVTT (seconds : Frac) : String :=
  match timeFields seconds with
  | (hrs, mins, secs, ms) =>
    pad hrs 2 ++ ":" ++ pad mins 2 ++ ":" ++ pad secs 2 ++ "." ++ pad ms 3

/-- A transcript segment with numeric times; `stop` is the property `end`. -/
structure Segment where
  text : String
  start : Frac
  stop : Frac

/-- The expression `x || 0` for a number `x`. -/
def orZero (x : Frac) : Frac := if x.num = 0 then Frac.ofInt 0 else x

/-- The cues built by the `map` callback of `generateSRT` and `generateVTT`, numbered from
`idx`. -/
def cuesFrom (fmt : Frac → String) (idx : Nat) : List Segment → List String
  | [] => []
  | seg :: rest =>
    (toString (idx + 1) ++ "\n" ++ fmt (orZero seg.start) ++ " --> " ++ fmt (orZero seg.stop)
      ++ "\n" ++ seg.text ++ "\n") :: cuesFrom fmt (idx + 1) rest

/-- Function `generateSRT(segments)`. -/
def generateSRT (segments : List Segment) : String :=
  "\n".intercalate (cuesFrom formatTimeSRT 0 segments)

/-- Function `generateVTT(segments)`. -/
def generateVTT (segments : List Segment) : String :=
  "WEBVTT\n\n" ++ "\n".intercalate (cuesFrom formatTimeVTT 0 segments)

/-- The double written `4.35`: the start time of a segment as `JSON.parse` reads it. -/
def fourPointThreeFive : Frac := roundDouble ⟨435, 100⟩

/-! ## App.jsx -/

/-- Function `detectPlatform(videoUrl)` of the frontend (App.jsx:16-25). -/
def App.detectPlatform (videoUrl : String) : Option String :=
  if jsIncludes videoUrl "youtube.com" || jsIncludes videoUrl "youtu.be" then some "youtube"
  else if jsIncludes videoUrl "instagram.com" then some "instagram"
  else if jsIncludes videoUrl "tiktok.com" then some "tiktok"
  else none

/-- The string `s` contains the string `p`: `p` occurs in `s` as a contiguous block. -/
def Contains (s p : String) : Prop := ∃ pre post : List Char, s.data = pre ++ p.data ++ post

/-! ## Artifact namespaces -/

/-- The value of a decimal digit character. -/
def digitValue (c : Char) : Nat := c.toNat - 48

/-- The predicate of the prefix scan in `downloadAndExtractAudio` (videoProcessor.js:52):
the file name starts with the Job's `video_<timestamp>` or `audio_<timestamp>`. -/
def scanMatches (env : Env) (f : String) : Bool :=
  jsStartsWith f (videoName env) || jsStartsWith f (audioName env)

/-! ## Translation mode -/

/-- The `translated` property of a result, when it holds a boolean. -/
def translatedFlag (result : Json) : Option Bool :=
  match result.get "translated" with
  | some (.bool b) => some b
  | _ => none

/-- A concrete environment in which every child process succeeds without touching the
disk and prints `stdout`, which `JSON.parse` reads as `parsed`. -/
def echoEnv (stdout : String) (parsed : Except String Json) : Env where
  dirname := "/app"
  now := 1
  exec := fun _ files => (.ok (stdout, ""), files)
  ffmpeg := fun _ output files => (none, files ++ [output])
  unlinkDenied := fun _ => false
  jsonParse := fun s => if s = stdout then parsed else .error "Unexpected token"

/-- An engine output with the full result shape that reports `translated: false`. -/
def untranslatedStdout : String :=
  "\x7b\"text\": \"hola\", \"language\": \"es\", \"duration\": 1, " ++
  "\"translated\": false, \"segments\": []\x7d"

/-- The value `JSON.parse` yields for `untranslatedStdout`. -/
def untranslatedResult : Json :=
  .obj [("text", .str "hola"), ("language", .str "es"), ("duration", .num 1),
    ("translated", .bool false), ("segments", .arr [])]

/-! ## Subtitle formats -/

/-- JavaScript `s.replace(/,/g, '.')`: every comma becomes a period. -/
def commaToPeriod (s : String) : String :=
  String.mk (s.data.map (fun c => if c = ',' then '.' else c))

/-! ## The mp3 fast path -/

/-- A concrete environment in which the downloader delivers an mp3 file,
`video_1.mp3`. -/
def mp3Env : Env where
  dirname := "/app"
  now := 1
  exec := fun cmd files =>
    if cmd = "yt-dlp --version" then (.ok ("2024.08.06\n", ""), files)
    else if cmd = "python3 \"/app/download_video.py\" \"https://youtu.be/x\" \"/app/temp/video_1\""
      then (.ok ("", ""), files ++ ["/app/temp/video_1.mp3"])
    else (.error "Command failed", files)
  ffmpeg := fun _ _ files => (some "ffmpeg exited with code 1", files)
  unlinkDenied := fun _ => false
  jsonParse := fun _ => .error "Unexpected end of JSON input"

/-! ## Lemmas and theorems -/

set_option maxRecDepth 100000

theorem unlink_files (env : Env) (p : String) (w : World) :
    (unlink env p w).2.files =
      w.files.filter (fun f => !(f == p && !env.unlinkDenied f)) := by
  unfold unlink
  split
  · rename_i h
    apply List.filter_congr
    intro f _
    by_cases hf : f = p
    · subst hf; simp [h.2]
    · have hb : (f == p) = false := by simpa using hf
      simp [bne, hb]
  · rename_i h
    show w.files = _
    symm
    rw [List.filter_eq_self]
    intro f hf
    by_cases hfp : f = p
    · subst hfp
      have : env.unlinkDenied f = true := by
        cases hd : env.unlinkDenied f
        · exact absurd ⟨hf, hd⟩ h
        · rfl
      simp [this]
    · simp [hfp]

theorem unlink_trace (env : Env) (p : String) (w : World) :
    ∃ ok, (unlink env p w).2.trace = w.trace ++ [Event.unlink p ok] := by
  unfold unlink
  split
  · exact ⟨true, rfl⟩
  · exact ⟨false, rfl⟩

theorem cleanupExts_ok (env : Env) (fp : String) (exts : List String) (w : World) :
    (cleanupExts env fp exts w).1 = .ok () := by
  induction exts generalizing w with
  | nil => rfl
  | cons e rest ih =>
    unfold cleanupExts
    split <;> exact ih _

theorem cleanupExts_files (env : Env) (fp : String) (exts : List String) (w : World) :
    (cleanupExts env fp exts w).2.files =
      w.files.filter (fun f =>
        !((exts.map (fun ext => fp ++ ext)).contains f && !env.unlinkDenied f)) := by
  induction exts generalizing w with
  | nil => simp [cleanupExts]
  | cons e rest ih =>
    unfold cleanupExts
    have hu := unlink_files env (fp ++ e) w
    split
    all_goals
      rename_i w1 heq
      have hw1 : w1 = (unlink env (fp ++ e) w).2 := by rw [heq]
      rw [ih, hw1, hu, List.filter_filter]
      apply List.filter_congr
      intro f _
      by_cases h1 : f = fp ++ e <;> cases hd : env.unlinkDenied f <;> simp [h1, hd]

theorem cleanupExts_trace (env : Env) (fp : String) (exts : List String) (w : World) :
    ∃ δ, (cleanupExts env fp exts w).2.trace = w.trace ++ δ ∧ ∀ e ∈ δ, e.isUnlink = true := by
  induction exts generalizing w with
  | nil => exact ⟨[], by simp [cleanupExts]⟩
  | cons e rest ih =>
    unfold cleanupExts
    obtain ⟨ok, hu⟩ := unlink_trace env (fp ++ e) w
    split
    all_goals
      rename_i w1 heq
      have hw1 : w1 = (unlink env (fp ++ e) w).2 := by rw [heq]
      obtain ⟨δ, hδ, hall⟩ := ih w1
      refine ⟨Event.unlink (fp ++ e) ok :: δ, ?_, ?_⟩
      · rw [hδ, hw1, hu]; simp
      · intro x hx
        rcases List.mem_cons.mp hx with h | h
        · subst h; rfl
        · exact hall x h

theorem cleanupLoop_ok (env : Env) (ps : List String) (w : World) :
    (cleanupLoop env ps w).1 = .ok () := by
  induction ps generalizing w with
  | nil => rfl
  | cons p rest ih =>
    unfold cleanupLoop
    split <;> exact ih _

theorem cleanupLoop_files (env : Env) (ps : List String) (w : World) :
    (cleanupLoop env ps w).2.files =
      w.files.filter (fun f => !((cleanupTargets ps).contains f && !env.unlinkDenied f)) := by
  induction ps generalizing w with
  | nil => simp [cleanupLoop, cleanupTargets]
  | cons p rest ih =>
    unfold cleanupLoop
    have hu := cleanupExts_files env p extensions w
    split
    all_goals
      rename_i w1 heq
      have hw1 : w1 = (cleanupExts env p extensions w).2 := by rw [heq]
      rw [ih, hw1, hu, List.filter_filter]
      apply List.filter_congr
      intro f _
      simp only [cleanupTargets, List.contains_eq_any_beq, List.any_append]
      cases hd : env.unlinkDenied f <;> simp [Bool.and_comm]

theorem cleanupLoop_trace (env : Env) (ps : List String) (w : World) :
    ∃ δ, (cleanupLoop env ps w).2.trace = w.trace ++ δ ∧ ∀ e ∈ δ, e.isUnlink = true := by
  induction ps generalizing w with
  | nil => exact ⟨[], by simp [cleanupLoop]⟩
  | cons p rest ih =>
    unfold cleanupLoop
    obtain ⟨δ1, h1, hall1⟩ := cleanupExts_trace env p extensions w
    split
    all_goals
      rename_i w1 heq
      have hw1 : w1 = (cleanupExts env p extensions w).2 := by rw [heq]
      obtain ⟨δ, hδ, hall⟩ := ih w1
      refine ⟨δ1 ++ δ, ?_, ?_⟩
      · rw [hδ, hw1, h1]; simp
      · intro x hx
        rcases List.mem_append.mp hx with h | h
        · exact hall1 x h
        · exact hall x h

theorem cleanupFiles_ok (env : Env) (ps : List String) (w : World) :
    (cleanupFiles env ps w).1 = .ok () := cleanupLoop_ok env ps _

theorem cleanupFiles_files (env : Env) (ps : List String) (w : World) :
    (cleanupFiles env ps w).2.files =
      w.files.filter (fun f => !((cleanupTargets ps).contains f && !env.unlinkDenied f)) :=
  cleanupLoop_files env ps _

theorem cleanupFiles_trace (env : Env) (ps : List String) (w : World) :
    ∃ δ, (cleanupFiles env ps w).2.trace = w.trace ++ Event.call "cleanupFiles" :: δ ∧
      ∀ e ∈ δ, e.isUnlink = true := by
  obtain ⟨δ, hδ, hall⟩ := cleanupLoop_trace env ps (w.emit (Event.call "cleanupFiles"))
  exact ⟨δ, by rw [cleanupFiles, hδ]; simp [World.emit], hall⟩

theorem mem_cleanupTargets (ps : List String) (f : String) :
    f ∈ cleanupTargets ps ↔ ∃ p ∈ ps, ∃ ext ∈ extensions, f = p ++ ext := by
  induction ps with
  | nil => simp [cleanupTargets]
  | cons p rest ih =>
    simp only [cleanupTargets, List.mem_append, List.mem_map, ih, List.mem_cons,
      exists_eq_or_imp]
    constructor
    · rintro (⟨ext, he, rfl⟩ | h)
      · exact Or.inl ⟨ext, he, rfl⟩
      · exact Or.inr h
    · rintro (⟨ext, he, rfl⟩ | h)
      · exact Or.inl ⟨ext, he, rfl⟩
      · exact Or.inr h

/-- C9: `cleanupFiles` never raises, whatever the paths and the state of the disk (files
missing, deletions refused). The names it targets are `p + ext` for `p` a listed path and
`ext` one of the six known extensions; it removes exactly the targeted files whose
deletion is not refused and keeps every other file, in place; so when no deletion is
refused the disk afterwards is the initial one minus the targeted names. -/
theorem cleanupFiles_never_raises (env : Env) (filePaths : List String) (w : World) :
    (cleanupFiles env filePaths w).1 = .ok () ∧
    (∀ f, f ∈ cleanupTargets filePaths ↔ ∃ p ∈ filePaths, ∃ ext ∈ extensions, f = p ++ ext) ∧
    (cleanupFiles env filePaths w).2.files =
      w.files.filter (fun f => !((cleanupTargets filePaths).contains f && !env.unlinkDenied f)) ∧
    ((∀ f, env.unlinkDenied f = false) →
      (cleanupFiles env filePaths w).2.files =
        w.files.filter (fun f => !(cleanupTargets filePaths).contains f)) := by
  refine ⟨cleanupFiles_ok env filePaths w, mem_cleanupTargets filePaths,
    cleanupFiles_files env filePaths w, ?_⟩
  intro h
  rw [cleanupFiles_files]
  apply List.filter_congr
  intro f _
  simp [h f]

theorem stagesOf_append (a b : List Event) : stagesOf (a ++ b) = stagesOf a ++ stagesOf b := by
  simp [stagesOf]

theorem cleanupCalls_append (a b : List Event) :
    cleanupCalls (a ++ b) = cleanupCalls a + cleanupCalls b := by
  simp [cleanupCalls]

theorem stagesOf_unlinks (δ : List Event) (h : ∀ e ∈ δ, e.isUnlink = true) : stagesOf δ = [] := by
  induction δ with
  | nil => rfl
  | cons e rest ih =>
    have he := h e (List.mem_cons_self _ _)
    have hr := ih (fun x hx => h x (List.mem_cons_of_mem _ hx))
    cases e <;> simp_all [stagesOf, stageOf, Event.isUnlink]

theorem cleanupCalls_unlinks (δ : List Event) (h : ∀ e ∈ δ, e.isUnlink = true) :
    cleanupCalls δ = 0 := by
  induction δ with
  | nil => rfl
  | cons e rest ih =>
    have he := h e (List.mem_cons_self _ _)
    have hr := ih (fun x hx => h x (List.mem_cons_of_mem _ hx))
    cases e <;> simp_all [cleanupCalls, Event.isUnlink, List.count_cons]

/-- What one call of `cleanupFiles` adds to the trace: no stage, one invocation. -/
theorem cleanupFiles_delta (env : Env) (ps : List String) (w : World) :
    ∃ w2 δ, cleanupFiles env ps w = (.ok (), w2) ∧ w2.trace = w.trace ++ δ ∧
      stagesOf δ = [] ∧ cleanupCalls δ = 1 := by
  obtain ⟨δ, hδ, hall⟩ := cleanupFiles_trace env ps w
  refine ⟨(cleanupFiles env ps w).2, Event.call "cleanupFiles" :: δ, ?_, hδ, ?_, ?_⟩
  · have := cleanupFiles_ok env ps w
    exact Prod.ext this rfl
  · have := stagesOf_unlinks δ hall
    simpa [stagesOf, stageOf] using this
  · have := cleanupCalls_unlinks δ hall
    simp [cleanupCalls, List.count_cons] at this ⊢
    exact this

/-- C1 (the code at the failing input): the downloader writes `video_1.mkv`, the
transcoder then fails, and the Job ends with an error while `video_1.mkv`, whose name
starts with the Job's prefix `video_1`, is still in the temp directory, which was empty
when the Job started. -/
theorem transcribeVideo_leaks_unlisted_extension :
    (transcribeVideo leakEnv "https://youtu.be/x" "youtube" false ⟨[], []⟩).2.files
        = ["/app/temp/video_1.mkv"] ∧
    readdir (TEMP_DIR leakEnv)
        (transcribeVideo leakEnv "https://youtu.be/x" "youtube" false ⟨[], []⟩).2.files
        = ["video_1.mkv"] ∧
    jsStartsWith "video_1.mkv" (videoName leakEnv) = true ∧
    (transcribeVideo leakEnv "https://youtu.be/x" "youtube" false ⟨[], []⟩).1
        = .error "Failed to download/extract audio: ffmpeg exited with code 1" := by
  refine ⟨by rfl, by rfl, by rfl, by rfl⟩

theorem execAsync_trace (env : Env) (site : ExecSite) (cmd : String) (w : World) :
    (∃ out w1, execAsync env site cmd w = (.ok out, w1) ∧
        env.exec cmd w.files = (.ok out, w1.files) ∧
        w1.trace = w.trace ++ [Event.exec site cmd true]) ∨
    (∃ msg w1, execAsync env site cmd w = (.error msg, w1) ∧
        env.exec cmd w.files = (.error msg, w1.files) ∧
        w1.trace = w.trace ++ [Event.exec site cmd false]) := by
  unfold execAsync
  split
  · rename_i out files h
    exact Or.inl ⟨out, _, rfl, h, rfl⟩
  · rename_i msg files h
    exact Or.inr ⟨msg, _, rfl, h, rfl⟩

theorem rename_trace (src dst : String) (w : World) :
    (∃ w1, rename src dst w = (.ok (), w1) ∧
        w1.trace = w.trace ++ [Event.rename src dst true]) ∨
    (∃ msg w1, rename src dst w = (.error msg, w1) ∧
        w1.trace = w.trace ++ [Event.rename src dst false]) := by
  unfold rename
  split
  · exact Or.inl ⟨_, rfl, rfl⟩
  · exact Or.inr ⟨_, _, rfl, rfl⟩

theorem ffmpeg_trace (env : Env) (inp out : String) (w : World) :
    (∃ w1, extractAudioWithFFmpeg env inp out w = (.ok (), w1) ∧
        w1.trace = w.trace ++ [Event.ffmpeg inp out true]) ∨
    (∃ msg w1, extractAudioWithFFmpeg env inp out w = (.error msg, w1) ∧
        w1.trace = w.trace ++ [Event.ffmpeg inp out false]) := by
  unfold extractAudioWithFFmpeg
  split
  · exact Or.inl ⟨_, rfl, rfl⟩
  · exact Or.inr ⟨_, _, rfl, rfl⟩

/-- What the `try` block of `downloadAndExtractAudio` adds to the trace. -/
theorem downloadTry_delta (env : Env) (url : String) (w : World) :
    ∃ r w1 δ, downloadTry env url w = (r, w1) ∧ w1.trace = w.trace ++ δ ∧
      cleanupCalls δ = 0 ∧
      ((r = .ok (audioPath env) ∧
          stagesOf δ = [(.downloaderProbe, true), (.download, true), (.extraction, true)] ∧
          (env.exec downloaderProbeCommand w.files).1.toBool = true) ∨
       (r = .error ytDlpMissingMessage ∧ stagesOf δ = [(.downloaderProbe, false)] ∧
          (env.exec downloaderProbeCommand w.files).1.toBool = false) ∨
       ((∃ m, r = .error m) ∧
          (env.exec downloaderProbeCommand w.files).1.toBool = true ∧
          (stagesOf δ = [(.downloaderProbe, true), (.download, false)] ∨
           stagesOf δ = [(.downloaderProbe, true), (.download, true)] ∨
           stagesOf δ = [(.downloaderProbe, true), (.download, true), (.extraction, false)]))) := by
  unfold downloadTry
  rcases execAsync_trace env .downloaderProbe downloaderProbeCommand w with
    ⟨out, w1, h1, hx1, t1⟩ | ⟨msg, w1, h1, hx1, t1⟩
  · rw [h1]
    dsimp only
    have hpt : (env.exec downloaderProbeCommand w.files).1.toBool = true := by rw [hx1]; rfl
    rcases execAsync_trace env .download (downloadCommand env url) w1 with
      ⟨out2, w2, h2, _, t2⟩ | ⟨msg2, w2, h2, _, t2⟩
    · rw [h2]
      dsimp only
      have t3 : (w2.emit (Event.readdir (TEMP_DIR env))).trace = w.trace ++
          [Event.exec .downloaderProbe downloaderProbeCommand true,
           Event.exec .download (downloadCommand env url) true,
           Event.readdir (TEMP_DIR env)] := by
        simp only [World.emit, t2, t1, List.append_assoc, List.cons_append, List.nil_append]
      split
      · refine ⟨_, _, _, rfl, t3, ?_, Or.inr (Or.inr ⟨⟨_, rfl⟩, hpt, Or.inr (Or.inl ?_)⟩)⟩
        · simp [cleanupCalls]
        · simp [stagesOf, stageOf]
      · rename_i downloadedFile hfind
        split
        · rcases rename_trace (pathJoin (TEMP_DIR env) downloadedFile) (audioPath env)
            (w2.emit (Event.readdir (TEMP_DIR env))) with ⟨w4, h4, t4⟩ | ⟨msg4, w4, h4, t4⟩
          · rw [h4]
            dsimp only
            refine ⟨_, _, [Event.exec .downloaderProbe downloaderProbeCommand true,
              Event.exec .download (downloadCommand env url) true,
              Event.readdir (TEMP_DIR env),
              Event.rename (pathJoin (TEMP_DIR env) downloadedFile) (audioPath env) true],
              rfl, ?_, ?_, Or.inl ⟨rfl, ?_, hpt⟩⟩
            · simp only [t4, t3, List.append_assoc, List.cons_append, List.nil_append]
            · simp [cleanupCalls]
            · simp [stagesOf, stageOf]
          · rw [h4]
            dsimp only
            refine ⟨_, _, [Event.exec .downloaderProbe downloaderProbeCommand true,
              Event.exec .download (downloadCommand env url) true,
              Event.readdir (TEMP_DIR env),
              Event.rename (pathJoin (TEMP_DIR env) downloadedFile) (audioPath env) false],
              rfl, ?_, ?_, Or.inr (Or.inr ⟨⟨_, rfl⟩, hpt, Or.inr (Or.inr ?_)⟩)⟩
            · simp only [t4, t3, List.append_assoc, List.cons_append, List.nil_append]
            · simp [cleanupCalls]
            · simp [stagesOf, stageOf]
        · rcases ffmpeg_trace env (pathJoin (TEMP_DIR env) downloadedFile) (audioPath env)
            (w2.emit (Event.readdir (TEMP_DIR env))) with ⟨w4, h4, t4⟩ | ⟨msg4, w4, h4, t4⟩
          · rw [h4]
            dsimp only
            obtain ⟨ok, hu⟩ := unlink_trace env (pathJoin (TEMP_DIR env) downloadedFile) w4
            refine ⟨_, _, [Event.exec .downloaderProbe downloaderProbeCommand true,
              Event.exec .download (downloadCommand env url) true,
              Event.readdir (TEMP_DIR env),
              Event.ffmpeg (pathJoin (TEMP_DIR env) downloadedFile) (audioPath env) true,
              Event.unlink (pathJoin (TEMP_DIR env) downloadedFile) ok],
              rfl, ?_, ?_, Or.inl ⟨rfl, ?_, hpt⟩⟩
            · rw [hu]; simp only [t4, t3, List.append_assoc, List.cons_append, List.nil_append]
            · simp [cleanupCalls]
            · simp [stagesOf, stageOf]
          · rw [h4]
            dsimp only
            refine ⟨_, _, [Event.exec .downloaderProbe downloaderProbeCommand true,
              Event.exec .download (downloadCommand env url) true,
              Event.readdir (TEMP_DIR env),
              Event.ffmpeg (pathJoin (TEMP_DIR env) downloadedFile) (audioPath env) false],
              rfl, ?_, ?_, Or.inr (Or.inr ⟨⟨_, rfl⟩, hpt, Or.inr (Or.inr ?_)⟩)⟩
            · simp only [t4, t3, List.append_assoc, List.cons_append, List.nil_append]
            · simp [cleanupCalls]
            · simp [stagesOf, stageOf]
    · rw [h2]
      dsimp only
      refine ⟨_, _, [Event.exec .downloaderProbe downloaderProbeCommand true,
           Event.exec .download (downloadCommand env url) false],
           rfl, ?_, ?_, Or.inr (Or.inr ⟨⟨_, rfl⟩, hpt, Or.inl ?_⟩)⟩
      · simp only [t2, t1, List.append_assoc, List.cons_append, List.nil_append]
      · simp [cleanupCalls]
      · simp [stagesOf, stageOf]
  · rw [h1]
    dsimp only
    refine ⟨_, _, _, rfl, t1, ?_, Or.inr (Or.inl ⟨rfl, ?_, ?_⟩)⟩
    · simp [cleanupCalls]
    · simp [stagesOf, stageOf]
    · rw [hx1]; rfl

/-- What `downloadAndExtractAudio` adds to the trace, by outcome. -/
theorem downloadAndExtractAudio_delta (env : Env) (url platform : String) (w : World) :
    ∃ r w1 δ, downloadAndExtractAudio env url platform w = (r, w1) ∧ w1.trace = w.trace ++ δ ∧
      ((r = .ok (audioPath env) ∧ cleanupCalls δ = 0 ∧
          stagesOf δ = [(.downloaderProbe, true), (.download, true), (.extraction, true)] ∧
          (env.exec downloaderProbeCommand w.files).1.toBool = true) ∨
       (r = .error ("Failed to download/extract audio: " ++ ytDlpMissingMessage) ∧
          cleanupCalls δ = 1 ∧ stagesOf δ = [(.downloaderProbe, false)] ∧
          (env.exec downloaderProbeCommand w.files).1.toBool = false) ∨
       ((∃ m, r = .error m) ∧ cleanupCalls δ = 1 ∧
          (env.exec downloaderProbeCommand w.files).1.toBool = true ∧
          (stagesOf δ = [(.downloaderProbe, true), (.download, false)] ∨
           stagesOf δ = [(.downloaderProbe, true), (.download, true)] ∨
           stagesOf δ = [(.downloaderProbe, true), (.download, true), (.extraction, false)]))) := by
  unfold downloadAndExtractAudio
  obtain ⟨r, w1, δ, h, ht, hc, hcase⟩ :=
    downloadTry_delta env url (w.emit (Event.call "downloadAndExtractAudio"))
  rw [h]
  have ht1 : w1.trace = w.trace ++ (Event.call "downloadAndExtractAudio" :: δ) := by
    rw [ht]; simp [World.emit]
  have hs1 : stagesOf (Event.call "downloadAndExtractAudio" :: δ) = stagesOf δ := by
    simp [stagesOf, stageOf]
  have hc1 : cleanupCalls (Event.call "downloadAndExtractAudio" :: δ) = 0 := by
    simp only [cleanupCalls] at hc ⊢
    rw [List.count_cons, hc]
    simp
  rcases hcase with ⟨hr, hs, hpt⟩ | hfail
  · subst hr
    exact ⟨_, _, _, rfl, ht1, Or.inl ⟨rfl, hc1, hs1.trans hs, by simpa [World.emit] using hpt⟩⟩
  · have herr : ∃ m, r = .error m := by
      rcases hfail with ⟨hr, _⟩ | ⟨hr, _⟩
      · exact ⟨_, hr⟩
      · exact hr
    obtain ⟨m, hm⟩ := herr
    subst hm
    dsimp only
    obtain ⟨w2, δ2, hcl, ht2, hs2, hc2⟩ := cleanupFiles_delta env [videoPath env, audioPath env] w1
    rw [hcl]
    dsimp only
    have ht3 : w2.trace = w.trace ++ ((Event.call "downloadAndExtractAudio" :: δ) ++ δ2) := by
      rw [ht2, ht1, List.append_assoc]
    have hs3 : stagesOf ((Event.call "downloadAndExtractAudio" :: δ) ++ δ2) = stagesOf δ := by
      rw [stagesOf_append, hs2, hs1, List.append_nil]
    have hc3 : cleanupCalls ((Event.call "downloadAndExtractAudio" :: δ) ++ δ2) = 1 := by
      rw [cleanupCalls_append, hc1, hc2]
    rcases hfail with ⟨hr, hs, hp⟩ | ⟨_, hp, hs⟩
    · have hm : m = ytDlpMissingMessage := by injection hr
      subst hm
      refine ⟨_, _, _, rfl, ht3, Or.inr (Or.inl ⟨rfl, hc3, hs3.trans hs, ?_⟩)⟩
      simpa [World.emit] using hp
    · exact ⟨_, _, _, rfl, ht3, Or.inr (Or.inr ⟨⟨_, rfl⟩, hc3, by simpa [World.emit] using hp,
        by rw [hs3]; exact hs⟩)⟩

/-- What `transcribeWithFasterWhisper` adds to the trace: its call and one engine run; a
result is returned only if the engine run succeeded, and is then the parsed stdout. -/
theorem transcribeWithFasterWhisper_delta (env : Env) (path : String) (translate : Bool)
    (w : World) :
    ∃ r w1 b, transcribeWithFasterWhisper env path translate w = (r, w1) ∧
      w1.trace = w.trace ++ [Event.call "transcribeWithFasterWhisper",
        Event.exec .engine (whisperCommand env path translate) b] ∧
      w1.files = (env.exec (whisperCommand env path translate) w.files).2 ∧
      ((∃ m, r = .error m) ∨
       (∃ v out err, r = .ok v ∧ b = true ∧ v ≠ Json.null ∧
          (env.exec (whisperCommand env path translate) w.files).1 = .ok (out, err) ∧
          env.jsonParse out = .ok v)) := by
  unfold transcribeWithFasterWhisper whisperTry
  rcases execAsync_trace env .engine (whisperCommand env path translate)
      (w.emit (Event.call "transcribeWithFasterWhisper")) with
    ⟨out, w1, h1, hx1, t1⟩ | ⟨msg, w1, h1, hx1, t1⟩
  · rw [h1]
    obtain ⟨stdout, stderr⟩ := out
    dsimp only
    have hf : w1.files = (env.exec (whisperCommand env path translate) w.files).2 := by
      simp only [World.emit] at hx1; rw [hx1]
    have ht : w1.trace = w.trace ++ [Event.call "transcribeWithFasterWhisper",
        Event.exec .engine (whisperCommand env path translate) true] := by
      rw [t1]; simp [World.emit]
    cases hp : env.jsonParse stdout with
    | error m => exact ⟨_, _, true, rfl, ht, hf, Or.inl ⟨_, rfl⟩⟩
    | ok v =>
      cases v with
      | null => exact ⟨_, _, true, rfl, ht, hf, Or.inl ⟨_, rfl⟩⟩
      | bool b => exact ⟨_, _, true, rfl, ht, hf, Or.inr ⟨_, stdout, stderr, rfl, rfl, by simp,
          by simp only [World.emit] at hx1; rw [hx1], hp⟩⟩
      | num b => exact ⟨_, _, true, rfl, ht, hf, Or.inr ⟨_, stdout, stderr, rfl, rfl, by simp,
          by simp only [World.emit] at hx1; rw [hx1], hp⟩⟩
      | str b => exact ⟨_, _, true, rfl, ht, hf, Or.inr ⟨_, stdout, stderr, rfl, rfl, by simp,
          by simp only [World.emit] at hx1; rw [hx1], hp⟩⟩
      | arr b => exact ⟨_, _, true, rfl, ht, hf, Or.inr ⟨_, stdout, stderr, rfl, rfl, by simp,
          by simp only [World.emit] at hx1; rw [hx1], hp⟩⟩
      | obj b => exact ⟨_, _, true, rfl, ht, hf, Or.inr ⟨_, stdout, stderr, rfl, rfl, by simp,
          by simp only [World.emit] at hx1; rw [hx1], hp⟩⟩
  · rw [h1]
    dsimp only
    refine ⟨_, _, false, rfl, ?_, ?_, Or.inl ⟨_, rfl⟩⟩
    · rw [t1]; simp [World.emit]
    · simp only [World.emit] at hx1; rw [hx1]

/-- What `transcribeVideo` adds to the trace, by outcome. -/
theorem transcribeVideo_delta (env : Env) (url platform : String) (translate : Bool)
    (w : World) :
    ∃ r w1 δ, transcribeVideo env url platform translate w = (r, w1) ∧
      w1.trace = w.trace ++ δ ∧
      (((env.exec engineProbeCommand w.files).1.toBool = false ∧
          r = .error engineMissingMessage ∧ cleanupCalls δ = 0 ∧
          stagesOf δ = [(.engineProbe, false)]) ∨
       ((env.exec engineProbeCommand w.files).1.toBool = true ∧ cleanupCalls δ = 1 ∧
          ((r = .error ("Failed to download/extract audio: " ++ ytDlpMissingMessage) ∧
              (env.exec downloaderProbeCommand
                (env.exec engineProbeCommand w.files).2).1.toBool = false ∧
              stagesOf δ = [(.engineProbe, true), (.downloaderProbe, false)]) ∨
           ((∃ m, r = .error m) ∧
              (env.exec downloaderProbeCommand
                (env.exec engineProbeCommand w.files).2).1.toBool = true ∧
              (stagesOf δ = [(.engineProbe, true), (.downloaderProbe, true), (.download, false)] ∨
               stagesOf δ = [(.engineProbe, true), (.downloaderProbe, true), (.download, true)] ∨
               stagesOf δ = [(.engineProbe, true), (.downloaderProbe, true), (.download, true),
                 (.extraction, false)] ∨
               ∃ b, stagesOf δ = [(.engineProbe, true), (.downloaderProbe, true),
                 (.download, true), (.extraction, true), (.transcription, b)])) ∨
           ((∃ v, r = .ok v) ∧
              (env.exec downloaderProbeCommand
                (env.exec engineProbeCommand w.files).2).1.toBool = true ∧
              stagesOf δ = [(.engineProbe, true), (.downloaderProbe, true), (.download, true),
                (.extraction, true), (.transcription, true)])))) := by
  unfold transcribeVideo transcribeTry checkFasterWhisperInstalled
  rcases execAsync_trace env .engineProbe engineProbeCommand
      (w.emit (Event.call "transcribeVideo")) with
    ⟨out, w1, h1, hx1, t1⟩ | ⟨msg, w1, h1, hx1, t1⟩
  · rw [h1]
    dsimp only
    have hp : (env.exec engineProbeCommand w.files).1.toBool = true := by
      simp only [World.emit] at hx1; rw [hx1]; rfl
    have hfiles : w1.files = (env.exec engineProbeCommand w.files).2 := by
      simp only [World.emit] at hx1; rw [hx1]
    have ht1 : w1.trace = w.trace ++
        [Event.call "transcribeVideo", Event.exec .engineProbe engineProbeCommand true] := by
      rw [t1]; simp [World.emit]
    have hs1 : stagesOf [Event.call "transcribeVideo",
        Event.exec .engineProbe engineProbeCommand true] = [(.engineProbe, true)] := by
      simp [stagesOf, stageOf]
    have hc1 : cleanupCalls [Event.call "transcribeVideo",
        Event.exec .engineProbe engineProbeCommand true] = 0 := by
      simp [cleanupCalls]
    obtain ⟨r2, w2, δ2, h2, ht2, hcase2⟩ := downloadAndExtractAudio_delta env url platform w1
    rw [h2]
    have ht2' : w2.trace = w.trace ++ ([Event.call "transcribeVideo",
        Event.exec .engineProbe engineProbeCommand true] ++ δ2) := by
      rw [ht2, ht1, List.append_assoc]
    rcases hcase2 with ⟨hr, hc, hs, hpd⟩ | hfail
    · subst hr
      rw [hfiles] at hpd
      dsimp only
      obtain ⟨r3, w3, b, h3, ht3, _, hcase3⟩ := transcribeWithFasterWhisper_delta env
        (audioPath env) translate (getFileSizeMB (audioPath env) w2)
      have hne : audioPath env ≠ "" := by
        intro h
        have := congrArg String.length h
        simp [audioPath, pathJoin, String.length_append] at this
        exact absurd this.1.2 (by decide)
      obtain ⟨w4, δ4, hcl, ht4, hs4, hc4⟩ := cleanupFiles_delta env [audioPath env] w3
      have htr : w4.trace = w.trace ++ (([Event.call "transcribeVideo",
          Event.exec .engineProbe engineProbeCommand true] ++ δ2) ++
          ([Event.stat (audioPath env), Event.call "transcribeWithFasterWhisper",
            Event.exec .engine (whisperCommand env (audioPath env) translate) b] ++ δ4)) := by
        rw [ht4, ht3]
        simp only [getFileSizeMB, World.emit, ht2', List.append_assoc, List.cons_append,
          List.nil_append]
      have hst : stagesOf (([Event.call "transcribeVideo",
          Event.exec .engineProbe engineProbeCommand true] ++ δ2) ++
          ([Event.stat (audioPath env), Event.call "transcribeWithFasterWhisper",
            Event.exec .engine (whisperCommand env (audioPath env) translate) b] ++ δ4)) =
          [(.engineProbe, true), (.downloaderProbe, true), (.download, true),
            (.extraction, true), (.transcription, b)] := by
        rw [stagesOf_append, stagesOf_append, stagesOf_append, hs1, hs, hs4]
        simp [stagesOf, stageOf]
      have hct : cleanupCalls (([Event.call "transcribeVideo",
          Event.exec .engineProbe engineProbeCommand true] ++ δ2) ++
          ([Event.stat (audioPath env), Event.call "transcribeWithFasterWhisper",
            Event.exec .engine (whisperCommand env (audioPath env) translate) b] ++ δ4)) = 1 := by
        rw [cleanupCalls_append, cleanupCalls_append, cleanupCalls_append, hc1, hc, hc4]
        simp [cleanupCalls]
      rw [h3]
      rcases hcase3 with ⟨m, hm⟩ | ⟨v, _, _, hv, hb, _⟩
      · subst hm
        dsimp only
        rw [if_neg hne, hcl]
        dsimp only
        exact ⟨_, _, _, rfl, htr, Or.inr ⟨hp, hct,
          Or.inr (Or.inl ⟨⟨_, rfl⟩, hpd, Or.inr (Or.inr (Or.inr ⟨b, hst⟩))⟩)⟩⟩
      · subst hv
        subst hb
        dsimp only
        rw [if_neg hne, hcl]
        dsimp only
        exact ⟨_, _, _, rfl, htr, Or.inr ⟨hp, hct, Or.inr (Or.inr ⟨⟨_, rfl⟩, hpd, hst⟩)⟩⟩
    · rcases hfail with ⟨hr, hc, hs, hpd⟩ | ⟨⟨m, hm⟩, hc, hpd, hs⟩
      · subst hr
        dsimp only
        rw [hfiles] at hpd
        refine ⟨_, _, _, rfl, ht2', Or.inr ⟨hp, ?_, Or.inl ⟨rfl, hpd, ?_⟩⟩⟩
        · rw [cleanupCalls_append, hc1, hc]
        · rw [stagesOf_append, hs1, hs]; rfl
      · subst hm
        dsimp only
        rw [hfiles] at hpd
        refine ⟨_, _, _, rfl, ht2', Or.inr ⟨hp, ?_, Or.inr (Or.inl ⟨⟨_, rfl⟩, hpd, ?_⟩)⟩⟩
        · rw [cleanupCalls_append, hc1, hc]
        · rw [stagesOf_append, hs1]
          rcases hs with hs | hs | hs <;> rw [hs] <;> simp
  · rw [h1]
    dsimp only
    refine ⟨_, _, [Event.call "transcribeVideo",
      Event.exec .engineProbe engineProbeCommand false], rfl, ?_, Or.inl ⟨?_, rfl, ?_, ?_⟩⟩
    · rw [t1]; simp [World.emit]
    · simp only [World.emit] at hx1; rw [hx1]; rfl
    · simp [cleanupCalls]
    · simp [stagesOf, stageOf]

theorem mem_stagesOf {tr : List Event} {e : Event} {s : Stage × Bool} (he : e ∈ tr)
    (hs : stageOf e = some s) : s ∈ stagesOf tr :=
  List.mem_filterMap.mpr ⟨e, he, hs⟩

/-- C2 (as stated, refuted): with no speech engine installed, a run of `transcribeVideo`
never invokes `cleanupFiles`. -/
theorem transcribeVideo_engine_missing_no_cleanup :
    (bareEnv.exec engineProbeCommand []).1.toBool = false ∧
    cleanupCalls (transcribeVideo bareEnv "https://youtu.be/x" "youtube" false ⟨[], []⟩).2.trace
      = 0 := by
  decide

/-- C2 (amended): a run of `transcribeVideo` invokes `cleanupFiles` exactly once when the
engine-availability check succeeds (whether the download or extraction fails, the
transcription fails, or every stage succeeds) and not at all when that check fails. -/
theorem transcribeVideo_cleanup_count (env : Env) (url platform : String) (translate : Bool)
    (w : World) :
    cleanupCalls (transcribeVideo env url platform translate w).2.trace =
      cleanupCalls w.trace +
        (if (env.exec engineProbeCommand w.files).1.toBool = true then 1 else 0) := by
  obtain ⟨r, w1, δ, h, ht, hcase⟩ := transcribeVideo_delta env url platform translate w
  rw [h]
  dsimp only
  rw [ht, cleanupCalls_append]
  rcases hcase with ⟨hp, _, hc, _⟩ | ⟨hp, hc, _⟩
  · rw [hc, hp]; simp
  · rw [hc, hp]; simp

theorem respond_failure (status : Nat) (msg : String) (w : World) (h : status ≠ 200) :
    (respond (.failure status msg) w).1.status = status ∧
    stagesOf (respond (.failure status msg) w).2.trace = stagesOf w.trace := by
  refine ⟨rfl, ?_⟩
  simp [respond, World.emit, stagesOf, stageOf, Response.status, h]

theorem respond_success (platform : String) (t : Json) (w : World) :
    (respond (.success platform t) w).1.status = 200 ∧
    stagesOf (respond (.success platform t) w).2.trace =
      stagesOf w.trace ++ [(.response, true)] := by
  refine ⟨rfl, ?_⟩
  simp [respond, World.emit, stagesOf, stageOf, Response.status]

/-- The stages of a request and its response status, by outcome. -/
theorem handleTranscribe_stages (env : Env) (req : Request) (files : List String) :
    ((handleTranscribe env req ⟨files, []⟩).1.status ≠ 200 ∧
      (stagesOf (handleTranscribe env req ⟨files, []⟩).2.trace ∈
        [[(Stage.validation, false)],
         [(.validation, true), (.detection, false)],
         [(.validation, true), (.detection, true), (.engineProbe, false)],
         [(.validation, true), (.detection, true), (.engineProbe, true),
           (.downloaderProbe, false)],
         [(.validation, true), (.detection, true), (.engineProbe, true),
           (.downloaderProbe, true), (.download, false)],
         [(.validation, true), (.detection, true), (.engineProbe, true),
           (.downloaderProbe, true), (.download, true)],
         [(.validation, true), (.detection, true), (.engineProbe, true),
           (.downloaderProbe, true), (.download, true), (.extraction, false)],
         [(.validation, true), (.detection, true), (.engineProbe, true),
           (.downloaderProbe, true), (.download, true), (.extraction, true),
           (.transcription, false)],
         [(.validation, true), (.detection, true), (.engineProbe, true),
           (.downloaderProbe, true), (.download, true), (.extraction, true),
           (.transcription, true)]])) ∨
    ((handleTranscribe env req ⟨files, []⟩).1.status = 200 ∧
      stagesOf (handleTranscribe env req ⟨files, []⟩).2.trace =
        [(.validation, true), (.detection, true), (.engineProbe, true),
         (.downloaderProbe, true), (.download, true), (.extraction, true),
         (.transcription, true), (.response, true)]) := by
  unfold handleTranscribe
  cases hu : req.url with
  | none =>
    left
    dsimp only
    rw [(respond_failure 400 _ _ (by decide)).1, (respond_failure 400 _ _ (by decide)).2]
    exact ⟨by decide, by simp [World.emit, stagesOf, stageOf]⟩
  | some url =>
    dsimp only
    by_cases h1 : url = ""
    · rw [if_pos h1]
      left
      rw [(respond_failure 400 _ _ (by decide)).1, (respond_failure 400 _ _ (by decide)).2]
      exact ⟨by decide, by simp [World.emit, stagesOf, stageOf]⟩
    · rw [if_neg h1]
      by_cases h2 : urlPatternTest url = false
      · rw [if_pos h2]
        left
        rw [(respond_failure 400 _ _ (by decide)).1, (respond_failure 400 _ _ (by decide)).2]
        exact ⟨by decide, by simp [World.emit, stagesOf, stageOf]⟩
      · rw [if_neg h2]
        cases hd : detectPlatform url with
        | none =>
          left
          dsimp only
          rw [(respond_failure 400 _ _ (by decide)).1, (respond_failure 400 _ _ (by decide)).2]
          exact ⟨by decide, by simp [World.emit, stagesOf, stageOf]⟩
        | some platform =>
          dsimp only
          obtain ⟨r, w1, δ, h, ht, hcase⟩ := transcribeVideo_delta env url platform req.translate
            (({ files := files, trace := [] } : World).emit (Event.validate true) |>.emit
              (Event.detect (some platform)))
          rw [h]
          have hst : ∀ st, stagesOf δ = st →
              stagesOf w1.trace = [(.validation, true), (.detection, true)] ++ st := by
            intro st hs
            rw [ht, stagesOf_append, hs]
            simp [World.emit, stagesOf, stageOf]
          have hfail : ∀ m st, r = .error m → stagesOf δ = st →
              (match (r, w1) with
                | (.ok transcript, w2) => respond (.success platform transcript) w2
                | (.error message, w2) => respond (.failure 500
                    (if message = "" then "Failed to transcribe video" else message)) w2
                ).1.status ≠ 200 ∧
              stagesOf (match (r, w1) with
                | (.ok transcript, w2) => respond (.success platform transcript) w2
                | (.error message, w2) => respond (.failure 500
                    (if message = "" then "Failed to transcribe video" else message)) w2
                ).2.trace = [(.validation, true), (.detection, true)] ++ st := by
            intro m st hm hs
            subst hm
            dsimp only
            rw [(respond_failure 500 _ _ (by decide)).1, (respond_failure 500 _ _ (by decide)).2]
            exact ⟨by decide, hst st hs⟩
          rcases hcase with ⟨_, hr, _, hs⟩ | ⟨_, _, hc⟩
          · left
            obtain ⟨h200, hst⟩ := hfail _ _ hr hs
            exact ⟨h200, by rw [hst]; simp⟩
          · rcases hc with ⟨hr, _, hs⟩ | ⟨⟨m, hr⟩, _, hs⟩ | ⟨⟨v, hr⟩, _, hs⟩
            · left
              obtain ⟨h200, hst⟩ := hfail _ _ hr hs
              exact ⟨h200, by rw [hst]; simp⟩
            · left
              rcases hs with hs | hs | hs | ⟨b, hs⟩
              · obtain ⟨h200, hst⟩ := hfail _ _ hr hs
                exact ⟨h200, by rw [hst]; simp⟩
              · obtain ⟨h200, hst⟩ := hfail _ _ hr hs
                exact ⟨h200, by rw [hst]; simp⟩
              · obtain ⟨h200, hst⟩ := hfail _ _ hr hs
                exact ⟨h200, by rw [hst]; simp⟩
              · obtain ⟨h200, hst⟩ := hfail _ _ hr hs
                exact ⟨h200, by rw [hst]; cases b <;> simp⟩
            · right
              subst hr
              dsimp only
              rw [(respond_success _ _ _).1, (respond_success _ _ _).2, hst _ hs]
              exact ⟨rfl, rfl⟩

/-- C3: for every request to the `/api/transcribe` handler the stages that start form an
initial segment of the fixed order (URL validation, platform detection, engine probe,
downloader probe, download, audio extraction, transcription, response assembly); every
stage that is followed by another one succeeded, so a failing stage is the last one to
run; and the success response is sent exactly when all eight stages ran and succeeded. -/
theorem handleTranscribe_stage_order (env : Env) (req : Request) (files : List String) :
    (stagesOf (handleTranscribe env req ⟨files, []⟩).2.trace).map Prod.fst =
      stageOrder.take (stagesOf (handleTranscribe env req ⟨files, []⟩).2.trace).length ∧
    (stagesOf (handleTranscribe env req ⟨files, []⟩).2.trace).dropLast.all
      (fun s => s.2) = true ∧
    ((handleTranscribe env req ⟨files, []⟩).1.status = 200 ↔
      stagesOf (handleTranscribe env req ⟨files, []⟩).2.trace =
        stageOrder.map (fun s => (s, true))) := by
  rcases handleTranscribe_stages env req files with ⟨h200, hmem⟩ | ⟨h200, hs⟩
  · simp only [List.mem_cons, List.mem_singleton, List.not_mem_nil, or_false] at hmem
    rcases hmem with hs | hs | hs | hs | hs | hs | hs | hs | hs <;>
      rw [hs] <;> refine ⟨by decide, by decide, ?_⟩ <;>
      exact ⟨fun h => absurd h h200, fun h => absurd h (by decide)⟩
  · rw [hs]
    exact ⟨by decide, by decide, fun _ => by decide, fun _ => h200⟩

/-- C4: a request whose url is missing or empty, fails the pattern `^https?://.+`, or names
no supported platform is answered with status 400; the disk is untouched and the only
effects are the checks and the response, so `transcribeVideo` is never called and no
external process runs. -/
theorem handleTranscribe_rejects_invalid_url (env : Env) (req : Request) (w : World)
    (h : req.url = none ∨ req.url = some "" ∨
      ∃ u, req.url = some u ∧ (urlPatternTest u = false ∨ detectPlatform u = none)) :
    ∃ msg δ, handleTranscribe env req w =
        (.failure 400 msg, { files := w.files, trace := w.trace ++ δ }) ∧
      (δ = [Event.validate false, Event.respond 400] ∨
       δ = [Event.validate true, Event.detect none, Event.respond 400]) := by
  unfold handleTranscribe
  cases hu : req.url with
  | none =>
    exact ⟨_, _, by simp [respond, World.emit, Response.status]; rfl, Or.inl rfl⟩
  | some url =>
    dsimp only
    by_cases h1 : url = ""
    · rw [if_pos h1]
      exact ⟨_, _, by simp [respond, World.emit, Response.status]; rfl, Or.inl rfl⟩
    · rw [if_neg h1]
      by_cases h2 : urlPatternTest url = false
      · rw [if_pos h2]
        exact ⟨_, _, by simp [respond, World.emit, Response.status]; rfl, Or.inl rfl⟩
      · rw [if_neg h2]
        have hd : detectPlatform url = none := by
          rcases h with h | h | ⟨u, hu', h⟩
          · rw [hu] at h; cases h
          · rw [hu] at h; injection h with h; exact absurd h h1
          · rw [hu] at hu'; injection hu' with hu'
            subst hu'
            rcases h with h | h
            · exact absurd h h2
            · exact h
        rw [hd]
        exact ⟨_, _, by simp [respond, World.emit, Response.status]; rfl, Or.inr rfl⟩

/-- C4 (witness): the request `not-a-url` is rejected with status 400. -/
theorem handleTranscribe_rejects_invalid_url_witness :
    ∃ msg δ, handleTranscribe bareEnv ⟨some "not-a-url", false⟩ ⟨[], []⟩ =
        (.failure 400 msg, { files := [], trace := [] ++ δ }) ∧
      (δ = [Event.validate false, Event.respond 400] ∨
       δ = [Event.validate true, Event.detect none, Event.respond 400]) :=
  handleTranscribe_rejects_invalid_url bareEnv ⟨some "not-a-url", false⟩ ⟨[], []⟩
    (Or.inr (Or.inr ⟨"not-a-url", rfl, Or.inl (by decide)⟩))

/-- C6: when the engine-availability probe fails (and, like any import check, leaves the
disk as it found it), `transcribeVideo` fails with the `faster-whisper is not installed`
message for every URL; the probe is the only effect, so neither the downloader nor the
transcoder nor the engine runs, and the disk is exactly as before. -/
theorem transcribeVideo_engine_missing (env : Env) (url platform : String) (translate : Bool)
    (w : World) (h : (env.exec engineProbeCommand w.files).1.toBool = false)
    (hdisk : (env.exec engineProbeCommand w.files).2 = w.files) :
    (transcribeVideo env url platform translate w).1 = .error engineMissingMessage ∧
    jsStartsWith engineMissingMessage "faster-whisper is not installed" = true ∧
    (transcribeVideo env url platform translate w).2.trace = w.trace ++
      [Event.call "transcribeVideo", Event.exec .engineProbe engineProbeCommand false] ∧
    (transcribeVideo env url platform translate w).2.files = w.files := by
  unfold transcribeVideo transcribeTry checkFasterWhisperInstalled execAsync
  simp only [World.emit]
  cases hx : env.exec engineProbeCommand w.files with
  | mk r files' =>
    rw [hx] at h hdisk
    cases r with
    | ok out => exact absurd h (by simp [Except.toBool])
    | error msg =>
      dsimp only at hdisk ⊢
      subst hdisk
      exact ⟨rfl, by decide, by simp, rfl⟩

/-- C6 (witness): on a host where no tool is installed. -/
theorem transcribeVideo_engine_missing_witness :
    (transcribeVideo bareEnv "https://www.youtube.com/watch?v=abc123" "youtube" false
        ⟨["/app/temp/keep.txt"], []⟩).1 = .error engineMissingMessage ∧
    jsStartsWith engineMissingMessage "faster-whisper is not installed" = true ∧
    (transcribeVideo bareEnv "https://www.youtube.com/watch?v=abc123" "youtube" false
        ⟨["/app/temp/keep.txt"], []⟩).2.trace = [] ++
      [Event.call "transcribeVideo", Event.exec .engineProbe engineProbeCommand false] ∧
    (transcribeVideo bareEnv "https://www.youtube.com/watch?v=abc123" "youtube" false
        ⟨["/app/temp/keep.txt"], []⟩).2.files = ["/app/temp/keep.txt"] :=
  transcribeVideo_engine_missing bareEnv "https://www.youtube.com/watch?v=abc123" "youtube"
    false ⟨["/app/temp/keep.txt"], []⟩ (by decide) (by decide)

theorem no_download_of_stages {δ : List Event}
    (h : ∀ b, (Stage.download, b) ∉ stagesOf δ) (cmd : String) (ok : Bool) :
    Event.exec .download cmd ok ∉ δ :=
  fun hmem => h ok (mem_stagesOf hmem rfl)

/-- C5 (as stated, refuted): with yt-dlp absent, the request `not-a-url` does not fail with
the `yt-dlp is not installed` error; it is rejected with status 400 `Invalid URL format`
before any probe runs. -/
theorem handleTranscribe_invalid_url_not_tool_missing :
    (∀ files, (noDownloaderEnv.exec downloaderProbeCommand files).1.toBool = false) ∧
    (handleTranscribe noDownloaderEnv ⟨some "not-a-url", false⟩ ⟨[], []⟩).1 =
      .failure 400 "Invalid URL format" ∧
    jsIncludes "Invalid URL format" "yt-dlp is not installed" = false ∧
    (handleTranscribe noDownloaderEnv ⟨some "not-a-url", false⟩ ⟨[], []⟩).2.trace =
      [Event.validate false, Event.respond 400] := by
  refine ⟨fun files => rfl, rfl, by decide, by decide⟩

/-- C5 (amended): whenever the `yt-dlp --version` probe fails, `downloadAndExtractAudio`
fails for every URL string, valid or not, with the message
`Failed to download/extract audio: yt-dlp is not installed. ...`, and the download command
is never executed; a request to the handler ends this way (status 500, same message, no
download) when its URL passes validation and platform detection and the engine check
succeeds. -/
theorem downloader_missing_fails_before_download (env : Env)
    (h : ∀ files, (env.exec downloaderProbeCommand files).1.toBool = false) :
    (∀ url platform w, ∃ w1 δ,
      downloadAndExtractAudio env url platform w =
        (.error ("Failed to download/extract audio: " ++ ytDlpMissingMessage), w1) ∧
      w1.trace = w.trace ++ δ ∧ ∀ cmd ok, Event.exec .download cmd ok ∉ δ) ∧
    (∀ url platform translate files,
      urlPatternTest url = true → detectPlatform url = some platform →
      (env.exec engineProbeCommand files).1.toBool = true →
      ∃ w1, handleTranscribe env ⟨some url, translate⟩ ⟨files, []⟩ =
          (.failure 500 ("Failed to download/extract audio: " ++ ytDlpMissingMessage), w1) ∧
        ∀ cmd ok, Event.exec .download cmd ok ∉ w1.trace) := by
  constructor
  · intro url platform w
    obtain ⟨r, w1, δ, hrun, ht, hcase⟩ := downloadAndExtractAudio_delta env url platform w
    rcases hcase with ⟨_, _, _, hp⟩ | ⟨hr, _, hs, _⟩ | ⟨_, _, hp, _⟩
    · rw [h] at hp; cases hp
    · subst hr
      refine ⟨w1, δ, hrun, ht, no_download_of_stages ?_⟩
      intro b; rw [hs]; simp
    · rw [h] at hp; cases hp
  · intro url platform translate files hurl hplat heng
    have hne : url ≠ "" := by
      intro h0; subst h0; exact absurd hurl (by decide)
    obtain ⟨r, w1, δ, hrun, ht, hcase⟩ := transcribeVideo_delta env url platform translate
      (({ files := files, trace := [] } : World).emit (Event.validate true) |>.emit
        (Event.detect (some platform)))
    have hmsg : ("Failed to download/extract audio: " ++ ytDlpMissingMessage) ≠ "" := by
      decide
    unfold handleTranscribe
    dsimp only
    rw [if_neg hne, if_neg (by rw [hurl]; decide), hplat]
    dsimp only
    rw [hrun]
    rcases hcase with ⟨hp, _⟩ | ⟨_, _, hc⟩
    · simp only [World.emit] at hp; rw [heng] at hp; cases hp
    · rcases hc with ⟨hr, _, hs⟩ | ⟨_, hp, _⟩ | ⟨_, hp, _⟩
      · subst hr
        dsimp only
        rw [if_neg hmsg]
        refine ⟨_, rfl, ?_⟩
        intro cmd ok hmem
        simp only [respond, World.emit, ht, Response.status] at hmem
        simp only [List.nil_append, List.append_assoc, List.cons_append, List.mem_cons,
          List.mem_append, List.mem_singleton, reduceCtorEq, false_or, or_false,
          List.not_mem_nil] at hmem
        exact no_download_of_stages (by intro b; rw [hs]; simp) cmd ok hmem
      · rw [h] at hp; cases hp
      · rw [h] at hp; cases hp

/-- C5 (witness): a host with the engine installed and yt-dlp absent. -/
theorem downloader_missing_fails_before_download_witness :
    ∃ w1 δ, downloadAndExtractAudio noDownloaderEnv "https://www.youtube.com/watch?v=abc123"
          "youtube" ⟨[], []⟩ =
        (.error ("Failed to download/extract audio: " ++ ytDlpMissingMessage), w1) ∧
      w1.trace = [] ++ δ ∧ ∀ cmd ok, Event.exec .download cmd ok ∉ δ :=
  (downloader_missing_fails_before_download noDownloaderEnv (fun _ => rfl)).1
    "https://www.youtube.com/watch?v=abc123" "youtube" ⟨[], []⟩

/-- C7 (as stated, refuted): a Job in which every stage succeeds returns the engine's
segments as printed, here with a first segment that ends before it starts and a second
segment that starts before the first. -/
theorem transcribeVideo_returns_disordered_segments :
    (transcribeVideo (workingEnv disorderedStdout (.ok disorderedResult))
        "https://youtu.be/x" "youtube" false ⟨[], []⟩).1 = .ok disorderedResult ∧
    (segmentsOf disorderedResult).all segmentWellTimed = false ∧
    startsNonDecreasing (segmentsOf disorderedResult) = false ∧
    segmentsOrdered disorderedResult = false := by
  refine ⟨by rfl, by decide, by decide, by decide⟩

/-- A result of `transcribeVideo` is the result of its call of
`transcribeWithFasterWhisper` on the Job's audio path, made in the world that this Job's
engine probe and download left behind. -/
theorem transcribeVideo_result (env : Env) (url platform : String) (translate : Bool)
    (w w1 : World) (v : Json)
    (h : transcribeVideo env url platform translate w = (.ok v, w1)) :
    ∃ o wa wb wc,
      execAsync env .engineProbe engineProbeCommand
        (w.emit (Event.call "transcribeVideo")) = (.ok o, wa) ∧
      downloadAndExtractAudio env url platform wa = (.ok (audioPath env), wb) ∧
      transcribeWithFasterWhisper env (audioPath env) translate
        (getFileSizeMB (audioPath env) wb) = (.ok v, wc) := by
  unfold transcribeVideo transcribeTry checkFasterWhisperInstalled at h
  rcases execAsync_trace env .engineProbe engineProbeCommand
      (w.emit (Event.call "transcribeVideo")) with
    ⟨out, wa, h1, _, _⟩ | ⟨msg, wa, h1, _, _⟩
  · rw [h1] at h
    dsimp only at h
    obtain ⟨r2, wb, δ2, h2, _, hcase2⟩ := downloadAndExtractAudio_delta env url platform wa
    rw [h2] at h
    rcases hcase2 with ⟨hr, _⟩ | ⟨hr, _⟩ | ⟨⟨m, hr⟩, _⟩
    · subst hr
      dsimp only at h
      cases h3 : transcribeWithFasterWhisper env (audioPath env) translate
          (getFileSizeMB (audioPath env) wb) with
      | mk r3 wc =>
        rw [h3] at h
        obtain ⟨wd, _, hcl, _⟩ := cleanupFiles_delta env [audioPath env] wc
        cases r3 with
        | error m =>
          dsimp only at h
          split at h
          · cases h
          · rw [hcl] at h; cases h
        | ok v3 =>
          dsimp only at h
          have hv : v3 = v := by
            split at h
            · injection h with h _; injection h
            · rw [hcl] at h; injection h with h _; injection h
          subst hv
          exact ⟨_, _, _, _, h1, h2, h3⟩
    · subst hr; cases h
    · subst hr; cases h
  · rw [h1] at h
    cases h

/-- The segments of a value are the segments printed on the stdout it was parsed from, and
the segment invariant of the value is the invariant of the printed segments. -/
theorem printedSegments_of_parse (env : Env) (out : String) (v : Json)
    (hp : env.jsonParse out = .ok v) :
    segmentsOf v = printedSegments env out ∧
    (segmentsOrdered v = true ↔
      (printedSegments env out).all segmentWellTimed = true ∧
      startsNonDecreasing (printedSegments env out) = true) := by
  have hs : printedSegments env out = segmentsOf v := by
    unfold printedSegments
    rw [hp]
  rw [hs]
  refine ⟨rfl, ?_⟩
  unfold segmentsOrdered
  exact Bool.and_eq_true _ _ ▸ Iff.rfl

/-- C7 (amended): a result of `transcribeWithFasterWhisper` is the value `JSON.parse`
yields for the stdout of its engine run, and a result of `transcribeVideo` is the value
`JSON.parse` yields for the stdout of the engine run of that Job, the run on the disk left
by the Job's engine probe and download. The returned segments are the printed segments, in
the printed order, so they satisfy `start ≤ end` and non-decreasing start times exactly
when the printed segments do. Conversely every value other than `null` that the engine
prints is returned, whatever its segments are. -/
theorem transcribeWithFasterWhisper_returns_engine_output (env : Env) (translate : Bool)
    (v : Json) :
    (∀ path w w1, transcribeWithFasterWhisper env path translate w = (.ok v, w1) →
      ∃ out err, (env.exec (whisperCommand env path translate) w.files).1 = .ok (out, err) ∧
        env.jsonParse out = .ok v ∧
        segmentsOf v = printedSegments env out ∧
        (segmentsOrdered v = true ↔
          (printedSegments env out).all segmentWellTimed = true ∧
          startsNonDecreasing (printedSegments env out) = true)) ∧
    (∀ url platform w w1, transcribeVideo env url platform translate w = (.ok v, w1) →
      ∃ o wa wb out err,
        execAsync env .engineProbe engineProbeCommand
          (w.emit (Event.call "transcribeVideo")) = (.ok o, wa) ∧
        downloadAndExtractAudio env url platform wa = (.ok (audioPath env), wb) ∧
        (env.exec (whisperCommand env (audioPath env) translate) wb.files).1 =
          .ok (out, err) ∧
        env.jsonParse out = .ok v ∧
        segmentsOf v = printedSegments env out ∧
        (segmentsOrdered v = true ↔
          (printedSegments env out).all segmentWellTimed = true ∧
          startsNonDecreasing (printedSegments env out) = true)) ∧
    (∀ path w out err,
      (env.exec (whisperCommand env path translate) w.files).1 = .ok (out, err) →
      env.jsonParse out = .ok v → v ≠ .null →
      (transcribeWithFasterWhisper env path translate w).1 = .ok v) := by
  have key : ∀ path w w1, transcribeWithFasterWhisper env path translate w = (.ok v, w1) →
      ∃ out err, (env.exec (whisperCommand env path translate) w.files).1 = .ok (out, err) ∧
        env.jsonParse out = .ok v := by
    intro path w w1 h
    obtain ⟨r, w2, b, hrun, _, _, hcase⟩ :=
      transcribeWithFasterWhisper_delta env path translate w
    rw [hrun] at h
    injection h with hr _
    rcases hcase with ⟨m, hm⟩ | ⟨v', out, err, hv, _, _, hx, hp⟩
    · rw [hm] at hr; cases hr
    · rw [hv] at hr
      injection hr with hr
      subst hr
      exact ⟨out, err, hx, hp⟩
  refine ⟨?_, ?_, ?_⟩
  · intro path w w1 h
    obtain ⟨out, err, hx, hp⟩ := key path w w1 h
    exact ⟨out, err, hx, hp, printedSegments_of_parse env out v hp⟩
  · intro url platform w w1 h
    obtain ⟨o, wa, wb, wc, h1, h2, h3⟩ :=
      transcribeVideo_result env url platform translate w w1 v h
    obtain ⟨out, err, hx, hp⟩ := key _ _ _ h3
    exact ⟨o, wa, wb, out, err, h1, h2, hx, hp, printedSegments_of_parse env out v hp⟩
  · intro path w out err hrun hparse hne
    have hexec : ∃ w1, execAsync env .engine (whisperCommand env path translate)
        (w.emit (Event.call "transcribeWithFasterWhisper")) = (.ok (out, err), w1) := by
      unfold execAsync
      simp only [World.emit]
      cases hx : env.exec (whisperCommand env path translate) w.files with
      | mk r files =>
        rw [hx] at hrun
        dsimp only at hrun
        subst hrun
        exact ⟨_, rfl⟩
    obtain ⟨w1, hexec⟩ := hexec
    unfold transcribeWithFasterWhisper whisperTry
    rw [hexec]
    dsimp only
    rw [hparse]
    cases v with
    | null => exact absurd rfl hne
    | bool b => rfl
    | num q => rfl
    | str s => rfl
    | arr xs => rfl
    | obj kvs => rfl

/-- C7 (witness): a Job on `https://youtu.be/x` in which every tool works and the engine
prints two segments, 1 s to 2 s and 5 s to 6 s. The Job returns the parsed output; its two
segments are the printed ones and satisfy the invariant. The same holds of
`transcribeWithFasterWhisper` called on the audio file alone. -/
theorem transcribeWithFasterWhisper_returns_engine_output_witness :
    (transcribeVideo orderedEnv "https://youtu.be/x" "youtube" false ⟨[], []⟩).1 =
      .ok orderedResult ∧
    (∃ o wa wb out err,
      execAsync orderedEnv .engineProbe engineProbeCommand
        ((⟨[], []⟩ : World).emit (Event.call "transcribeVideo")) = (.ok o, wa) ∧
      downloadAndExtractAudio orderedEnv "https://youtu.be/x" "youtube" wa =
        (.ok (audioPath orderedEnv), wb) ∧
      (orderedEnv.exec (whisperCommand orderedEnv (audioPath orderedEnv) false)
        wb.files).1 = .ok (out, err) ∧
      orderedEnv.jsonParse out = .ok orderedResult ∧
      segmentsOf orderedResult = printedSegments orderedEnv out ∧
      (segmentsOrdered orderedResult = true ↔
        (printedSegments orderedEnv out).all segmentWellTimed = true ∧
        startsNonDecreasing (printedSegments orderedEnv out) = true)) ∧
    (∃ out err,
      (orderedEnv.exec (whisperCommand orderedEnv "/app/temp/audio_1.mp3" false) []).1 =
        .ok (out, err) ∧
      orderedEnv.jsonParse out = .ok orderedResult ∧
      segmentsOf orderedResult = printedSegments orderedEnv out ∧
      (segmentsOrdered orderedResult = true ↔
        (printedSegments orderedEnv out).all segmentWellTimed = true ∧
        startsNonDecreasing (printedSegments orderedEnv out) = true)) ∧
    (transcribeWithFasterWhisper orderedEnv "/app/temp/audio_1.mp3" false ⟨[], []⟩).1 =
      .ok orderedResult ∧
    (segmentsOf orderedResult).length = 2 ∧
    (printedSegments orderedEnv orderedStdout).length = 2 ∧
    segmentsOrdered orderedResult = true :=
  ⟨rfl,
    (transcribeWithFasterWhisper_returns_engine_output orderedEnv false orderedResult).2.1
      "https://youtu.be/x" "youtube" ⟨[], []⟩
      (transcribeVideo orderedEnv "https://youtu.be/x" "youtube" false ⟨[], []⟩).2 rfl,
    (transcribeWithFasterWhisper_returns_engine_output orderedEnv false orderedResult).1
      "/app/temp/audio_1.mp3" ⟨[], []⟩
      (transcribeWithFasterWhisper orderedEnv "/app/temp/audio_1.mp3" false ⟨[], []⟩).2 rfl,
    (transcribeWithFasterWhisper_returns_engine_output orderedEnv false orderedResult).2.2
      "/app/temp/audio_1.mp3" ⟨[], []⟩ orderedStdout "" rfl rfl (by intro h; cases h),
    rfl, rfl, by decide⟩

/-- C8 (as stated, refuted): engine outputs that are valid JSON without the result shape,
`{}` and `42`, are returned as results; no error is raised. -/
theorem transcribeWithFasterWhisper_accepts_shapeless_json :
    (transcribeWithFasterWhisper (workingEnv "\x7b\x7d" (.ok (.obj [])))
        "/app/temp/audio_1.mp3" false ⟨[], []⟩).1 = .ok (.obj []) ∧
    (transcribeWithFasterWhisper (workingEnv "42" (.ok (.num 42)))
        "/app/temp/audio_1.mp3" false ⟨[], []⟩).1 = .ok (.num 42) := by
  exact ⟨by rfl, by rfl⟩

/-- C8 (amended): when the engine run succeeds with a stdout that `JSON.parse` rejects,
`transcribeWithFasterWhisper` fails and returns no result; its message is
`Transcription error: ` followed by the parser's message, unless that message contains
`python3: command not found` or `No module named`, in which case the `catch` block
substitutes its installation hint. A stdout that parses to `null` fails with
`Transcription error: Cannot read properties of null ...`. Every other valid JSON value is
returned as the result, without any check of its shape. -/
theorem transcribeWithFasterWhisper_malformed_output (env : Env) (path : String)
    (translate : Bool) (w : World) (out err : String)
    (hrun : (env.exec (whisperCommand env path translate) w.files).1 = .ok (out, err)) :
    (∀ msg, env.jsonParse out = .error msg →
      (transcribeWithFasterWhisper env path translate w).1 = .error (whisperCatch msg) ∧
      (jsIncludes msg "python3: command not found" = false →
        jsIncludes msg "No module named" = false →
        (transcribeWithFasterWhisper env path translate w).1 =
          .error ("Transcription error: " ++ msg))) ∧
    (env.jsonParse out = .ok .null →
      (transcribeWithFasterWhisper env path translate w).1 =
        .error ("Transcription error: " ++ nullReadMessage)) ∧
    (∀ v, env.jsonParse out = .ok v → v ≠ .null →
      (transcribeWithFasterWhisper env path translate w).1 = .ok v) := by
  have hexec : ∃ w1, execAsync env .engine (whisperCommand env path translate)
      (w.emit (Event.call "transcribeWithFasterWhisper")) = (.ok (out, err), w1) := by
    unfold execAsync
    simp only [World.emit]
    cases hx : env.exec (whisperCommand env path translate) w.files with
    | mk r files =>
      rw [hx] at hrun
      dsimp only at hrun
      subst hrun
      exact ⟨_, rfl⟩
  obtain ⟨w1, hexec⟩ := hexec
  refine ⟨?_, ?_, ?_⟩
  · intro msg hparse
    have hres : (transcribeWithFasterWhisper env path translate w).1 =
        .error (whisperCatch msg) := by
      unfold transcribeWithFasterWhisper whisperTry
      rw [hexec]
      dsimp only
      rw [hparse]
    refine ⟨hres, ?_⟩
    intro h1 h2
    rw [hres]
    simp [whisperCatch, h1, h2]
  · intro hparse
    unfold transcribeWithFasterWhisper whisperTry
    rw [hexec]
    dsimp only
    rw [hparse]
    rfl
  · intro v hparse hne
    unfold transcribeWithFasterWhisper whisperTry
    rw [hexec]
    dsimp only
    rw [hparse]
    cases v with
    | null => exact absurd rfl hne
    | bool b => rfl
    | num q => rfl
    | str s => rfl
    | arr xs => rfl
    | obj kvs => rfl

/-- C8 (witness): the engine prints text that is not JSON. -/
theorem transcribeWithFasterWhisper_malformed_output_witness :
    (transcribeWithFasterWhisper
        (workingEnv "loading model" (.error "Unexpected token l in JSON at position 0"))
        "/app/temp/audio_1.mp3" false ⟨[], []⟩).1 =
      .error ("Transcription error: " ++ "Unexpected token l in JSON at position 0") :=
  ((transcribeWithFasterWhisper_malformed_output
      (workingEnv "loading model" (.error "Unexpected token l in JSON at position 0"))
      "/app/temp/audio_1.mp3" false ⟨[], []⟩ "loading model" "" rfl).1
    "Unexpected token l in JSON at position 0" rfl).2 (by decide) (by decide)

/-- C10 (the code at the failing input): for a segment that starts at 4.35 s, a time of
4350 whole milliseconds, `formatTimeSRT` computes the fields 0, 0, 4 and 349. The double
4.35 is 2448832297382707 / 2^49; `(seconds % 1) * 1000` is the double
3078632557772797 / 2^43, just below 350, and `Math.floor` truncates it. The cue written by
`generateSRT` and by `generateVTT` therefore starts at 4349 ms, and no parser can recover
4350 ms from it. -/
theorem generateSRT_truncates_milliseconds :
    fourPointThreeFive.num * 2 ^ 49 = 2448832297382707 * fourPointThreeFive.den ∧
    (jsMul (jsMod fourPointThreeFive (Frac.ofInt 1)) (Frac.ofInt 1000)).num * 2 ^ 43 =
      3078632557772797 *
        (jsMul (jsMod fourPointThreeFive (Frac.ofInt 1)) (Frac.ofInt 1000)).den ∧
    timeFields fourPointThreeFive = (0, 0, 4, 349) ∧
    (0 * 3600000 + 0 * 60000 + 4 * 1000 + 349 : Int) ≠ 4350 ∧
    generateSRT [⟨"hi", fourPointThreeFive, Frac.ofInt 5⟩] =
      "1\n00:00:04,349 --> 00:00:05,000\nhi\n" ∧
    generateVTT [⟨"hi", fourPointThreeFive, Frac.ofInt 5⟩] =
      "WEBVTT\n\n1\n00:00:04.349 --> 00:00:05.000\nhi\n" := by
  refine ⟨by decide, by decide, by decide, by decide, by decide, by decide⟩

theorem includesChars_iff (s p : List Char) :
    includesChars s p = true ↔ ∃ pre post : List Char, s = pre ++ p ++ post := by
  induction s with
  | nil =>
    simp only [includesChars, List.isEmpty_iff]
    constructor
    · intro h; exact ⟨[], [], by simp [h]⟩
    · rintro ⟨pre, post, h⟩
      have h' := congrArg List.length h
      simp only [List.length_nil, List.length_append] at h'
      exact List.eq_nil_of_length_eq_zero (by omega)
  | cons c cs ih =>
    simp only [includesChars, Bool.or_eq_true, List.isPrefixOf_iff_prefix, ih]
    constructor
    · rintro (⟨t, ht⟩ | ⟨pre, post, h⟩)
      · exact ⟨[], t, by simp [ht]⟩
      · exact ⟨c :: pre, post, by simp [h]⟩
    · rintro ⟨pre, post, h⟩
      cases pre with
      | nil => exact Or.inl ⟨post, by simpa using h.symm⟩
      | cons d pre' =>
        simp only [List.cons_append, List.cons.injEq] at h
        exact Or.inr ⟨pre', post, h.2⟩

theorem jsIncludes_iff (s p : String) : jsIncludes s p = true ↔ Contains s p :=
  includesChars_iff s.data p.data

/-- C11: `detectPlatform` is a function of the URL string alone, defined on every string:
it yields `youtube` iff the URL contains `youtube.com` or `youtu.be`; `instagram` iff it
contains neither of those and contains `instagram.com`; `tiktok` iff it contains none of
those three and contains `tiktok.com`; and null iff it contains none of the four. The URL
`https://www.youtube.com/watch?v=abc123` yields `youtube`, and the frontend copy agrees
with the server copy on every string. -/
theorem detectPlatform_spec (url : String) :
    (detectPlatform url = some "youtube" ↔
      Contains url "youtube.com" ∨ Contains url "youtu.be") ∧
    (detectPlatform url = some "instagram" ↔
      ¬ Contains url "youtube.com" ∧ ¬ Contains url "youtu.be" ∧
        Contains url "instagram.com") ∧
    (detectPlatform url = some "tiktok" ↔
      ¬ Contains url "youtube.com" ∧ ¬ Contains url "youtu.be" ∧
        ¬ Contains url "instagram.com" ∧ Contains url "tiktok.com") ∧
    (detectPlatform url = none ↔
      ¬ Contains url "youtube.com" ∧ ¬ Contains url "youtu.be" ∧
        ¬ Contains url "instagram.com" ∧ ¬ Contains url "tiktok.com") ∧
    (∀ tag, detectPlatform url = some tag →
      tag = "youtube" ∨ tag = "instagram" ∨ tag = "tiktok") ∧
    detectPlatform "https://www.youtube.com/watch?v=abc123" = some "youtube" ∧
    App.detectPlatform url = detectPlatform url := by
  simp only [← jsIncludes_iff]
  refine ⟨?_, ?_, ?_, ?_, ?_, by decide, rfl⟩
  all_goals
    unfold detectPlatform
    cases jsIncludes url "youtube.com" <;> cases jsIncludes url "youtu.be" <;>
      cases jsIncludes url "instagram.com" <;> cases jsIncludes url "tiktok.com" <;>
      simp

theorem digitValue_digitChar (k : Nat) (h : k < 10) : digitValue (Nat.digitChar k) = k := by
  interval_cases k <;> rfl

theorem foldl_toDigitsCore (fuel n : Nat) (ds : List Char) (h : n < fuel) :
    (Nat.toDigitsCore 10 fuel n ds).foldl (fun a c => 10 * a + digitValue c) 0 =
      ds.foldl (fun a c => 10 * a + digitValue c) n := by
  induction fuel generalizing n ds with
  | zero => omega
  | succ fuel ih =>
    unfold Nat.toDigitsCore
    simp only
    split
    · rename_i h0
      simp only [List.foldl_cons, Nat.mul_zero, Nat.zero_add]
      rw [digitValue_digitChar _ (Nat.mod_lt _ (by decide))]
      have : n % 10 = n := by omega
      rw [this]
    · rename_i h0
      rw [ih (n / 10) _ (by omega)]
      simp only [List.foldl_cons]
      rw [digitValue_digitChar _ (Nat.mod_lt _ (by decide))]
      have : 10 * (n / 10) + n % 10 = n := Nat.div_add_mod n 10
      rw [this]

theorem toString_nat_injective {a b : Nat} (h : toString a = toString b) : a = b := by
  have ha := foldl_toDigitsCore (a + 1) a [] (by omega)
  have hb := foldl_toDigitsCore (b + 1) b [] (by omega)
  simp only [List.foldl_nil] at ha hb
  have hd : Nat.toDigits 10 a = Nat.toDigits 10 b := by
    have := congrArg String.data h
    simpa [toString, Nat.repr, List.asString] using this
  unfold Nat.toDigits at hd
  rw [← ha, ← hb, hd]

theorem string_append_left_cancel {a b c : String} (h : a ++ b = a ++ c) : b = c := by
  have := congrArg String.data h
  simp only [String.data_append, List.append_cancel_left_eq] at this
  exact String.ext this

theorem string_append_right_cancel {a b c : String} (h : a ++ c = b ++ c) : a = b := by
  have := congrArg String.data h
  simp only [String.data_append, List.append_cancel_right_eq] at this
  exact String.ext this

theorem prefixes_same_length {f p q : List Char} (hp : p <+: f) (hq : q <+: f)
    (hlen : p.length = q.length) : p = q := by
  obtain ⟨s, hs⟩ := hp
  obtain ⟨t, ht⟩ := hq
  exact List.append_inj_left (hs.trans ht.symm) hlen

/-- C12 (as stated, refuted): two Jobs that read the same millisecond use the same
`videoPath` and the same `audioPath`; and the second Job, started on the temp directory
in which the first left `video_1.mkv`, discovers that file with its prefix scan and hands
it to the transcoder. -/
theorem same_millisecond_jobs_collide :
    leakEnv.now = (workingEnv "[]" (.ok (.arr []))).now ∧
    videoPath leakEnv = videoPath (workingEnv "[]" (.ok (.arr []))) ∧
    audioPath leakEnv = audioPath (workingEnv "[]" (.ok (.arr []))) ∧
    (transcribeVideo leakEnv "https://youtu.be/x" "youtube" false ⟨[], []⟩).2.files =
      ["/app/temp/video_1.mkv"] ∧
    Event.ffmpeg "/app/temp/video_1.mkv" "/app/temp/audio_1.mp3" true ∈
      (downloadAndExtractAudio (workingEnv "[]" (.ok (.arr []))) "https://youtu.be/x"
        "youtube" ⟨["/app/temp/video_1.mkv"], []⟩).2.trace := by
  refine ⟨rfl, rfl, rfl, by rfl, by decide⟩

/-- C12 (amended): for two invocations of `downloadAndExtractAudio` in the same process,
the video paths coincide exactly when the clock readings do, and so do the audio paths:
different readings give different paths, the same millisecond gives the same paths. When
the readings differ and have the same number of decimal digits, no file name matches the
prefix scan of both Jobs, so the file discovered by one Job is never a file written under
the other Job's prefix. -/
theorem artifact_namespaces (env1 env2 : Env) (hdir : env1.dirname = env2.dirname) :
    (videoPath env1 = videoPath env2 ↔ env1.now = env2.now) ∧
    (audioPath env1 = audioPath env2 ↔ env1.now = env2.now) ∧
    (env1.now ≠ env2.now →
      (toString env1.now).length = (toString env2.now).length →
      ∀ f, ¬ (scanMatches env1 f = true ∧ scanMatches env2 f = true)) := by
  refine ⟨⟨?_, ?_⟩, ⟨?_, ?_⟩, ?_⟩
  · intro h
    unfold videoPath pathJoin TEMP_DIR videoName at h
    rw [hdir] at h
    exact toString_nat_injective (string_append_left_cancel (string_append_left_cancel h))
  · intro h
    unfold videoPath pathJoin TEMP_DIR videoName
    rw [hdir, h]
  · intro h
    unfold audioPath pathJoin TEMP_DIR audioName at h
    rw [hdir] at h
    exact toString_nat_injective (string_append_left_cancel
      (string_append_right_cancel (string_append_left_cancel h)))
  · intro h
    unfold audioPath pathJoin TEMP_DIR audioName
    rw [hdir, h]
  · intro hne hlen f hboth
    obtain ⟨h1, h2⟩ := hboth
    simp only [scanMatches, jsStartsWith, Bool.or_eq_true, List.isPrefixOf_iff_prefix,
      videoName, audioName, String.data_append] at h1 h2
    have hl : ∀ (tag : String),
        (tag.data ++ (toString env1.now).data).length =
          (tag.data ++ (toString env2.now).data).length := by
      intro tag
      have hlen' : (toString env1.now).data.length = (toString env2.now).data.length := hlen
      simp only [List.length_append, hlen']
    have key : ∀ (tag : String), tag.data ++ (toString env1.now).data <+: f.data →
        tag.data ++ (toString env2.now).data <+: f.data → False := by
      intro tag hp hq
      have := prefixes_same_length hp hq (hl tag)
      have hd := List.append_cancel_left this
      exact hne (toString_nat_injective (String.ext hd))
    have cross : ∀ (m n : Nat), "video_".data ++ (toString m).data <+: f.data →
        "audio_".data ++ (toString n).data <+: f.data → False := by
      intro m n hp hq
      obtain ⟨s, hs⟩ := hp
      obtain ⟨t, ht⟩ := hq
      have := hs.trans ht.symm
      simp at this
    rcases h1 with h1 | h1 <;> rcases h2 with h2 | h2
    · exact key _ h1 h2
    · exact cross _ _ h1 h2
    · exact cross _ _ h2 h1
    · exact key _ h1 h2

/-- C12 (witness): two Jobs in the same process reading the milliseconds 1 and 2. -/
theorem artifact_namespaces_witness :
    (videoPath leakEnv = videoPath { leakEnv with now := 2 } ↔
      leakEnv.now = ({ leakEnv with now := 2 } : Env).now) ∧
    (audioPath leakEnv = audioPath { leakEnv with now := 2 } ↔
      leakEnv.now = ({ leakEnv with now := 2 } : Env).now) ∧
    (leakEnv.now ≠ ({ leakEnv with now := 2 } : Env).now →
      (toString leakEnv.now).length =
        (toString ({ leakEnv with now := 2 } : Env).now).length →
      ∀ f, ¬ (scanMatches leakEnv f = true ∧
        scanMatches { leakEnv with now := 2 } f = true)) :=
  artifact_namespaces leakEnv { leakEnv with now := 2 } rfl

theorem trim_keep (x y : Char) (m : List Char) (hx : isJsWhitespace x = false)
    (hy : isJsWhitespace y = false) :
    (((x :: (m ++ [y])).dropWhile isJsWhitespace).reverse.dropWhile isJsWhitespace).reverse =
      x :: (m ++ [y]) := by
  rw [List.dropWhile_cons_of_neg (by simp [hx])]
  have hrev : (x :: (m ++ [y])).reverse = y :: (m.reverse ++ [x]) := by simp
  rw [hrev, List.dropWhile_cons_of_neg (by simp [hy])]
  simp

theorem trim_drop_space (x y : Char) (m : List Char) (hx : isJsWhitespace x = false)
    (hy : isJsWhitespace y = false) :
    (((x :: (m ++ [y, ' '])).dropWhile isJsWhitespace).reverse.dropWhile
      isJsWhitespace).reverse = x :: (m ++ [y]) := by
  rw [List.dropWhile_cons_of_neg (by simp [hx])]
  have hrev : (x :: (m ++ [y, ' '])).reverse = ' ' :: y :: (m.reverse ++ [x]) := by simp
  rw [hrev, List.dropWhile_cons_of_pos (by decide), List.dropWhile_cons_of_neg (by simp [hy])]
  simp

theorem whisperCommand_false (env : Env) (path : String) :
    whisperCommand env path false =
      "python3 \"" ++ pathJoin env.dirname "whisper_transcribe.py" ++ "\" \"" ++ path ++ "\"" := by
  apply String.ext
  have h := trim_drop_space 'p' '"'
    ("ython3 \"".data ++ (pathJoin env.dirname "whisper_transcribe.py").data ++ "\" \"".data
      ++ path.data) (by decide) (by decide)
  simp only [whisperCommand, jsTrim, String.data_append, if_false, Bool.false_eq_true]
  have e1 : "python3 \"".data = 'p' :: "ython3 \"".data := rfl
  have e2 : "\" ".data = ['"', ' '] := rfl
  have e3 : "\"".data = ['"'] := rfl
  have e4 : "".data = [] := rfl
  simp only [e1, e2, e3, e4, List.cons_append, List.append_assoc, List.append_nil] at h ⊢
  exact h

theorem whisperCommand_true (env : Env) (path : String) :
    whisperCommand env path true = whisperCommand env path false ++ " --translate" := by
  rw [whisperCommand_false]
  apply String.ext
  have h := trim_keep 'p' 'e'
    ("ython3 \"".data ++ (pathJoin env.dirname "whisper_transcribe.py").data ++ "\" \"".data
      ++ path.data ++ "\" --translat".data) (by decide) (by decide)
  simp only [whisperCommand, jsTrim, String.data_append, if_true]
  have e1 : "python3 \"".data = 'p' :: "ython3 \"".data := rfl
  have e2 : "\" ".data = ['"', ' '] := rfl
  have e3 : "\"".data = ['"'] := rfl
  have e5 : "--translate".data = "--translat".data ++ ['e'] := rfl
  have e6 : " --translate".data = ' ' :: "--translat".data ++ ['e'] := rfl
  have e7 : "\" --translat".data = '"' :: ' ' :: "--translat".data := rfl
  simp only [e1, e2, e3, e5, e6, e7, List.cons_append, List.append_assoc, List.nil_append] at h ⊢
  exact h

/-- C13 (as stated, refuted): called with `translate = true`, the command carries
`--translate`, the engine prints a result whose `translated` property is `false`, and
that result is returned unchanged. -/
theorem transcribeWithFasterWhisper_flag_not_checked :
    jsEndsWith (whisperCommand (echoEnv untranslatedStdout (.ok untranslatedResult))
      "/app/temp/audio_1.mp3" true) " --translate" = true ∧
    (transcribeWithFasterWhisper (echoEnv untranslatedStdout (.ok untranslatedResult))
      "/app/temp/audio_1.mp3" true ⟨[], []⟩).1 = .ok untranslatedResult ∧
    translatedFlag untranslatedResult = some false := by
  refine ⟨by decide, by rfl, by rfl⟩

/-- C13 (amended): for every audio path, the command run by `transcribeWithFasterWhisper`
is `python3 "<script>" "<audioPath>"` when `translate` is false and that same command
followed by ` --translate` when it is true, so it ends with ` --translate` iff `translate`
is true. For every successful call the returned result is the value `JSON.parse` yields
for the engine's stdout, so its `translated` flag is the one the engine printed; the code
neither sets nor checks it. -/
theorem whisperCommand_translate_iff (env : Env) (path : String) :
    whisperCommand env path false =
      "python3 \"" ++ pathJoin env.dirname "whisper_transcribe.py" ++ "\" \"" ++ path
        ++ "\"" ∧
    whisperCommand env path true = whisperCommand env path false ++ " --translate" ∧
    (∀ translate, jsEndsWith (whisperCommand env path translate) " --translate" = translate) ∧
    (∀ translate w w1 v, transcribeWithFasterWhisper env path translate w = (.ok v, w1) →
      ∃ out err parsed,
        (env.exec (whisperCommand env path translate) w.files).1 = .ok (out, err) ∧
        env.jsonParse out = .ok parsed ∧ v = parsed ∧
        translatedFlag v = translatedFlag parsed) := by
  refine ⟨whisperCommand_false env path, whisperCommand_true env path, ?_, ?_⟩
  · intro translate
    cases translate with
    | true =>
      rw [whisperCommand_true]
      simp [jsEndsWith, String.data_append]
    | false =>
      rw [whisperCommand_false]
      cases hs : jsEndsWith ("python3 \"" ++ pathJoin env.dirname "whisper_transcribe.py"
          ++ "\" \"" ++ path ++ "\"") " --translate" with
      | false => rfl
      | true =>
        exfalso
        simp only [jsEndsWith, List.isSuffixOf_iff_suffix, String.data_append] at hs
        obtain ⟨t, ht⟩ := hs
        have hr := congrArg List.reverse ht
        simp at hr
  · intro translate w w1 v h
    obtain ⟨r, w2, b, hrun, _, _, hcase⟩ :=
      transcribeWithFasterWhisper_delta env path translate w
    rw [hrun] at h
    injection h with hr _
    rcases hcase with ⟨m, hm⟩ | ⟨v', out, err, hv, _, _, hx, hp⟩
    · rw [hm] at hr; cases hr
    · rw [hv] at hr
      injection hr with hr
      subst hr
      exact ⟨out, err, v', hx, hp, rfl, rfl⟩

theorem digitChar_isDigit (k : Nat) (h : k < 10) : (Nat.digitChar k).isDigit = true := by
  interval_cases k <;> decide

theorem toDigitsCore_isDigit (fuel n : Nat) (ds : List Char)
    (h : ∀ c ∈ ds, c.isDigit = true) :
    ∀ c ∈ Nat.toDigitsCore 10 fuel n ds, c.isDigit = true := by
  induction fuel generalizing n ds with
  | zero => simpa [Nat.toDigitsCore] using h
  | succ fuel ih =>
    have hcons : ∀ c ∈ Nat.digitChar (n % 10) :: ds, c.isDigit = true := by
      intro c hc
      rcases List.mem_cons.mp hc with hc | hc
      · rw [hc]; exact digitChar_isDigit _ (Nat.mod_lt _ (by decide))
      · exact h c hc
    unfold Nat.toDigitsCore
    simp only
    split
    · exact hcons
    · exact ih _ _ hcons

theorem toString_nat_isDigit (n : Nat) : ∀ c ∈ (toString n).data, c.isDigit = true := by
  have := toDigitsCore_isDigit (n + 1) n [] (by simp)
  simpa [toString, Nat.repr, Nat.toDigits, List.asString] using this

theorem toString_nat_no_comma (n : Nat) : ∀ c ∈ (toString n).data, c ≠ ',' := by
  intro c hc hcomma
  have := toString_nat_isDigit n c hc
  rw [hcomma] at this
  exact absurd this (by decide)

theorem toString_int_no_comma (n : Int) : ∀ c ∈ (toString n).data, c ≠ ',' := by
  cases n with
  | ofNat m => exact toString_nat_no_comma m
  | negSucc m =>
    intro c hc
    have hc' : c ∈ "-".data ++ (toString (m + 1)).data := by
      simpa [toString, String.data_append] using hc
    rcases List.mem_append.mp hc' with h | h
    · have : c = '-' := by simpa using h
      rw [this]; decide
    · exact toString_nat_no_comma _ c h

theorem commaToPeriod_append (a b : String) :
    commaToPeriod (a ++ b) = commaToPeriod a ++ commaToPeriod b := by
  apply String.ext
  simp [commaToPeriod, String.data_append]

theorem commaToPeriod_of_no_comma (s : String) (h : ∀ c ∈ s.data, c ≠ ',') :
    commaToPeriod s = s := by
  apply String.ext
  simp only [commaToPeriod]
  conv_rhs => rw [← List.map_id s.data]
  apply List.map_congr_left
  intro c hc
  simp [h c hc]

theorem pad_no_comma (n : Int) (k : Nat) : ∀ c ∈ (pad n k).data, c ≠ ',' := by
  intro c hc
  simp only [pad, jsPadStart, List.mem_append, List.mem_replicate] at hc
  rcases hc with ⟨_, h⟩ | h
  · rw [h]; decide
  · exact toString_int_no_comma n c h

/-- A field within `0 .. 10^k - 1` is written with exactly `k` decimal digits. -/
theorem pad_width (n : Nat) (k : Nat) (hk : 0 < k) (hn : n < 10 ^ k) :
    (pad (n : Int) k).length = k ∧ ∀ c ∈ (pad (n : Int) k).data, c.isDigit = true := by
  have hlen : (toString n).data.length ≤ k := Nat.repr_length n k hk hn
  have hts : toString (n : Int) = toString n := rfl
  constructor
  · simp only [pad, jsPadStart, hts, String.length, List.length_append, List.length_replicate]
    omega
  · intro c hc
    simp only [pad, jsPadStart, hts, List.mem_append, List.mem_replicate] at hc
    rcases hc with ⟨_, h⟩ | h
    · rw [h]; decide
    · exact toString_nat_isDigit n c h

/-- A field is never written with fewer characters than its width. -/
theorem pad_min_width (n : Int) (k : Nat) : k ≤ (pad n k).length := by
  simp only [pad, jsPadStart, String.length, List.length_append, List.length_replicate]
  omega

/-- The period-separated timestamp is the comma-separated one with its comma replaced. -/
theorem formatTimeVTT_eq (t : Frac) : formatTimeVTT t = commaToPeriod (formatTimeSRT t) := by
  unfold formatTimeVTT formatTimeSRT
  obtain ⟨hrs, mins, secs, ms⟩ := timeFields t
  simp only [commaToPeriod_append, commaToPeriod_of_no_comma _ (pad_no_comma _ _)]
  rfl

theorem cuesFrom_get (fmt : Frac → String) (segments : List Segment) (k i : Nat)
    (seg : Segment) (h : segments[i]? = some seg) :
    (cuesFrom fmt k segments)[i]? =
      some (toString (k + i + 1) ++ "\n" ++ fmt (orZero seg.start) ++ " --> " ++
        fmt (orZero seg.stop) ++ "\n" ++ seg.text ++ "\n") := by
  induction segments generalizing k i with
  | nil => simp at h
  | cons s rest ih =>
    cases i with
    | zero =>
      simp only [List.getElem?_cons_zero, Option.some.injEq] at h
      subst h
      simp [cuesFrom]
    | succ j =>
      simp only [List.getElem?_cons_succ] at h
      have := ih (k + 1) j h
      simp only [cuesFrom, List.getElem?_cons_succ, this]
      have e : k + 1 + j + 1 = k + (j + 1) + 1 := by omega
      rw [e]

theorem cuesFrom_congr (f g : Frac → String) (h : ∀ t, f t = g t) (k : Nat)
    (segments : List Segment) : cuesFrom f k segments = cuesFrom g k segments := by
  induction segments generalizing k with
  | nil => rfl
  | cons s rest ih => simp only [cuesFrom, h, ih]

theorem commaToPeriod_intercalate_go (acc sep : String) (l : List String) :
    commaToPeriod (String.intercalate.go acc sep l) =
      String.intercalate.go (commaToPeriod acc) (commaToPeriod sep) (l.map commaToPeriod) := by
  induction l generalizing acc with
  | nil => simp [String.intercalate.go]
  | cons a rest ih =>
    simp only [String.intercalate.go, List.map_cons, ih, commaToPeriod_append]

theorem commaToPeriod_intercalate (sep : String) (l : List String) :
    commaToPeriod (sep.intercalate l) =
      (commaToPeriod sep).intercalate (l.map commaToPeriod) := by
  cases l with
  | nil => rfl
  | cons a rest => simp only [String.intercalate, List.map_cons, commaToPeriod_intercalate_go]

theorem cuesFrom_commaToPeriod (k : Nat) (segments : List Segment)
    (h : ∀ seg ∈ segments, ∀ c ∈ seg.text.data, c ≠ ',') :
    (cuesFrom formatTimeSRT k segments).map commaToPeriod =
      cuesFrom formatTimeVTT k segments := by
  induction segments generalizing k with
  | nil => rfl
  | cons s rest ih =>
    have hs := h s (List.mem_cons_self _ _)
    have hrest := ih (k + 1) (fun seg hseg => h seg (List.mem_cons_of_mem _ hseg))
    simp only [cuesFrom, List.map_cons, hrest, commaToPeriod_append, formatTimeVTT_eq,
      commaToPeriod_of_no_comma _ hs,
      commaToPeriod_of_no_comma _ (toString_nat_no_comma (k + 1))]
    rfl

/-- C14: for every segment list, the cue that `generateSRT` builds for the segment at
index `i` is numbered `i + 1` and has the timing line `<start> --> <end>`, each timestamp
being `pad(hrs):pad(mins):pad(secs),pad(ms, 3)`: fields zero-padded to at least two, two,
two and three characters, and to exactly that many decimal digits when the field lies
within `0..99` (`0..999` for milliseconds). `formatTimeVTT(t)` is `formatTimeSRT(t)` with
the comma replaced by a period, and `generateVTT(segments)` is `WEBVTT`, a blank line, and
the text `generateSRT` builds with the comma of every timestamp replaced by a period;
when no segment text holds a comma this is `generateSRT(segments)` with every comma
replaced. -/
theorem generateVTT_is_generateSRT_with_periods (segments : List Segment) :
    generateSRT segments = "\n".intercalate (cuesFrom formatTimeSRT 0 segments) ∧
    (∀ i seg, segments[i]? = some seg →
      (cuesFrom formatTimeSRT 0 segments)[i]? =
        some (toString (i + 1) ++ "\n" ++ formatTimeSRT (orZero seg.start) ++ " --> " ++
          formatTimeSRT (orZero seg.stop) ++ "\n" ++ seg.text ++ "\n")) ∧
    (∀ t, formatTimeSRT t =
      pad (timeFields t).1 2 ++ ":" ++ pad (timeFields t).2.1 2 ++ ":" ++
        pad (timeFields t).2.2.1 2 ++ "," ++ pad (timeFields t).2.2.2 3) ∧
    (∀ (n : Int) (k : Nat), k ≤ (pad n k).length) ∧
    (∀ (n k : Nat), 0 < k → n < 10 ^ k →
      (pad (n : Int) k).length = k ∧ ∀ c ∈ (pad (n : Int) k).data, c.isDigit = true) ∧
    (∀ t, formatTimeVTT t = commaToPeriod (formatTimeSRT t)) ∧
    generateVTT segments = "WEBVTT\n\n" ++
      "\n".intercalate (cuesFrom (fun t => commaToPeriod (formatTimeSRT t)) 0 segments) ∧
    ((∀ seg ∈ segments, ∀ c ∈ seg.text.data, c ≠ ',') →
      generateVTT segments = "WEBVTT\n\n" ++ commaToPeriod (generateSRT segments)) := by
  refine ⟨rfl, ?_, fun t => rfl, pad_min_width, pad_width, formatTimeVTT_eq, ?_, ?_⟩
  · intro i seg h
    have := cuesFrom_get formatTimeSRT segments 0 i seg h
    simpa using this
  · unfold generateVTT
    rw [cuesFrom_congr formatTimeVTT (fun t => commaToPeriod (formatTimeSRT t))
      formatTimeVTT_eq]
  · intro h
    unfold generateVTT generateSRT
    rw [commaToPeriod_intercalate, cuesFrom_commaToPeriod 0 segments h]
    rfl

theorem readdir_mem (dir : String) (files : List String) (f : String)
    (h : f ∈ readdir dir files) : pathJoin dir f ∈ files := by
  unfold readdir at h
  obtain ⟨p, hp, hf⟩ := List.mem_filterMap.mp h
  split at hf
  · rename_i hpre
    dsimp only at hf
    split at hf
    · cases hf
    · injection hf with hf
      subst hf
      simp only [jsStartsWith, List.isPrefixOf_iff_prefix, String.data_append] at hpre
      obtain ⟨t, ht⟩ := hpre
      have hdrop : p.data.drop (dir.data.length + 1) = t := by
        rw [← ht]
        have hl : (dir.data ++ "/".data).length = dir.data.length + 1 := by
          simp [List.length_append]
        rw [← hl, List.drop_left]
      have : pathJoin dir (String.mk (p.data.drop (dir.data.length + 1))) = p := by
        apply String.ext
        simp only [pathJoin, String.data_append, hdrop]
        exact ht
      rw [this]
      exact hp
  · cases hf

/-- C15: when the file discovered by the prefix scan after a successful download has a
name ending in `.mp3`, `downloadAndExtractAudio` returns the Job's audio path after
exactly these effects: the two child processes, the directory listing, and one successful
rename of the discovered file to the audio path. The transcoder is not invoked; the audio
path exists afterwards, the discovered file exists only under the audio path, and every
other file is left as the downloader left it. -/
theorem downloadAndExtractAudio_mp3_fast_path (env : Env) (url platform : String) (w : World)
    (o1 o2 : String × String) (F1 F2 : List String) (f : String)
    (h1 : env.exec downloaderProbeCommand w.files = (.ok o1, F1))
    (h2 : env.exec (downloadCommand env url) F1 = (.ok o2, F2))
    (h3 : (readdir (TEMP_DIR env) F2).find? (scanMatches env) = some f)
    (h4 : jsEndsWith f ".mp3" = true) :
    pathJoin (TEMP_DIR env) f ∈ F2 ∧
    (downloadAndExtractAudio env url platform w).1 = .ok (audioPath env) ∧
    (downloadAndExtractAudio env url platform w).2.trace = w.trace ++
      [Event.call "downloadAndExtractAudio",
       Event.exec .downloaderProbe downloaderProbeCommand true,
       Event.exec .download (downloadCommand env url) true,
       Event.readdir (TEMP_DIR env),
       Event.rename (pathJoin (TEMP_DIR env) f) (audioPath env) true] ∧
    (∀ input output ok, Event.ffmpeg input output ok ∉
      [Event.call "downloadAndExtractAudio",
       Event.exec .downloaderProbe downloaderProbeCommand true,
       Event.exec .download (downloadCommand env url) true,
       Event.readdir (TEMP_DIR env),
       Event.rename (pathJoin (TEMP_DIR env) f) (audioPath env) true]) ∧
    audioPath env ∈ (downloadAndExtractAudio env url platform w).2.files ∧
    (pathJoin (TEMP_DIR env) f ∈ (downloadAndExtractAudio env url platform w).2.files →
      pathJoin (TEMP_DIR env) f = audioPath env) ∧
    (∀ g, g ≠ pathJoin (TEMP_DIR env) f → g ≠ audioPath env →
      (g ∈ (downloadAndExtractAudio env url platform w).2.files ↔ g ∈ F2)) := by
  have hsrc : pathJoin (TEMP_DIR env) f ∈ F2 :=
    readdir_mem _ _ _ (List.mem_of_find?_eq_some h3)
  have h3' : (readdir (TEMP_DIR env) F2).find?
      (fun f => jsStartsWith f (videoName env) || jsStartsWith f (audioName env)) = some f := h3
  have hrun : downloadAndExtractAudio env url platform w =
      (.ok (audioPath env),
        { files := F2.filter (fun g => g != pathJoin (TEMP_DIR env) f && g != audioPath env)
            ++ [audioPath env],
          trace := w.trace ++
            [Event.call "downloadAndExtractAudio",
             Event.exec .downloaderProbe downloaderProbeCommand true,
             Event.exec .download (downloadCommand env url) true,
             Event.readdir (TEMP_DIR env),
             Event.rename (pathJoin (TEMP_DIR env) f) (audioPath env) true] }) := by
    unfold downloadAndExtractAudio downloadTry execAsync
    simp only [World.emit, h1, h2, h3', h4, if_true, rename, hsrc, List.append_assoc,
      List.cons_append, List.nil_append]
  rw [hrun]
  refine ⟨hsrc, rfl, rfl, ?_, ?_, ?_, ?_⟩
  · intro input output ok hmem
    simp at hmem
  · simp
  · intro hmem
    simp only [List.mem_append, List.mem_filter, List.mem_singleton] at hmem
    rcases hmem with ⟨_, hne⟩ | heq
    · simp at hne
    · exact heq
  · intro g hg1 hg2
    simp [List.mem_append, List.mem_filter, hg1, hg2]

/-- C15 (witness): the downloader delivers `video_1.mp3`. -/
theorem downloadAndExtractAudio_mp3_fast_path_witness :
    (downloadAndExtractAudio mp3Env "https://youtu.be/x" "youtube" ⟨[], []⟩).1 =
        .ok "/app/temp/audio_1.mp3" ∧
    (downloadAndExtractAudio mp3Env "https://youtu.be/x" "youtube" ⟨[], []⟩).2.files =
        ["/app/temp/audio_1.mp3"] ∧
    (∀ input output ok, Event.ffmpeg input output ok ∉
      [Event.call "downloadAndExtractAudio",
       Event.exec .downloaderProbe downloaderProbeCommand true,
       Event.exec .download (downloadCommand mp3Env "https://youtu.be/x") true,
       Event.readdir (TEMP_DIR mp3Env),
       Event.rename (pathJoin (TEMP_DIR mp3Env) "video_1.mp3") (audioPath mp3Env) true]) :=
  ⟨by rfl, by rfl,
    (downloadAndExtractAudio_mp3_fast_path mp3Env "https://youtu.be/x" "youtube" ⟨[], []⟩
      ("2024.08.06\n", "") ("", "") [] ["/app/temp/video_1.mp3"] "video_1.mp3"
      (by rfl) (by rfl) (by rfl) (by rfl)).2.2.2.1⟩


end VideoTranscript
